import Mathlib

/-!
wavegen `tune.cc`: note names, MIDI key ids and frequencies.

A shallow embedding of `strtonum` and of `Tuner` from `src/tune.cc`, and the
properties of the written specification that hold (or fail) on it.

Conventions of the embedding.

* A `std::string` is the list of its bytes; it may hold NUL bytes.  The
  buffer behind `c_str()` is that list followed by one terminating NUL.
* A `const char *` into that buffer is the list of bytes from the pointer to
  the end of the string; the terminating NUL stays implicit, so reading at
  the end of the list reads `0`.
* C++ exceptions are the error side of `Except Exn`.
* `char` may be signed or unsigned (the C++ implementation chooses): the
  flag `sc` says which, and every result is stated for both.
* `long` is 64 bits wide (LP64), `int` is 32 bits wide.
-/

namespace Tune

/-! ## Bytes and strings -/

/-- One `char` of storage, as its unsigned value. -/
abbrev Byte := Fin 256

/-- The byte of an ASCII character. -/
def ch (c : Char) : Byte := Fin.ofNat c.toNat

/-- The bytes of an ASCII string literal. -/
def str (s : String) : List Byte := s.toList.map ch

/-- What the program can throw.  `OutOfBounds` is not a C++ exception: it marks
an indexed read outside its array, which the source leaves undefined. -/
inductive Exn where
  | StrToNumError
  | TunerError
  | OutOfBounds
  deriving DecidableEq, Repr

/-! ## The C library functions the program calls -/

/-- C `isspace` in the "C" locale: space, and `\t \n \v \f \r`. -/
def isspace (c : Byte) : Bool := c.val == 32 || (9 ≤ c.val && c.val ≤ 13)

/-- C `isdigit`. -/
def isdigit (c : Byte) : Bool := 48 ≤ c.val && c.val ≤ 57

/-- Largest `long` (LP64). -/
def LONG_MAX : Int := 9223372036854775807

/-- Smallest `long` (LP64). -/
def LONG_MIN : Int := -9223372036854775808

/-- C `strlen`: the number of bytes before the first NUL. -/
def strlen (s : List Byte) : Nat := (s.takeWhile (fun c => c.val != 0)).length

/-- The value of a run of decimal digits, most significant first. -/
def digits_value (ds : List Byte) : Nat :=
  ds.foldl (fun acc d => acc * 10 + (d.val - 48)) 0

/-- C `strtol(nptr, &endptr, 10)` (ISO C 7.22.1.4): skip white space, take an
optional sign, then the longest run of decimal digits.  Returns the value and
the offset of `endptr` from `nptr`.  With no digit there is no conversion: the
value is `0` and `endptr = nptr`.  A value that does not fit a `long`
saturates to `LONG_MIN` or `LONG_MAX`, and `endptr` is still past the digits. -/
def strtol (nptr : List Byte) : Int × Nat :=
  let ws := (nptr.takeWhile isspace).length
  let s := nptr.drop ws
  let neg : Bool := s.head? == some 45
  let sl : Nat := if s.head? == some 45 || s.head? == some 43 then 1 else 0
  let ds := (s.drop sl).takeWhile isdigit
  if ds.isEmpty then (0, 0)
  else
    let n : Int := (digits_value ds : Nat)
    let v : Int :=
      if neg then (if -n < LONG_MIN then LONG_MIN else -n)
      else (if LONG_MAX < n then LONG_MAX else n)
    (v, ws + sl + ds.length)

/-! ## Integer conversions of the C++ abstract machine -/

/-- Conversion to `int` (32 bits, two's complement). -/
def to_int (x : Int) : Int := (x + 2147483648) % 4294967296 - 2147483648

/-- Conversion to `uint8_t`. -/
def to_uint8 (x : Int) : Nat := (x % 256).toNat

/-- Conversion to `char`: the low 8 bits, read as signed when `sc`. -/
def to_char (sc : Bool) (x : Int) : Int :=
  let u := x % 256
  if sc && decide (128 ≤ u) then u - 256 else u

/-- The value of a stored byte as a `char`, promoted to `int`. -/
def char_val (sc : Bool) (b : Byte) : Int := to_char sc (b.val : Int)

/-- Bitwise `&` of two `int`s, on their two's complement representations. -/
def int_and (a b : Int) : Int :=
  to_int (Nat.land (a % 4294967296).toNat (b % 4294967296).toNat : Nat)

/-! ## `strtonum` (tune.cc lines 25-38) -/

/-- The template `strtonum(fn, str, args...)`: `fn` stands for the conversion
with its extra arguments already applied, and returns its result together
with the offset of `endptr`. -/
def strtonum {α : Type} (fn : List Byte → α × Nat) (s : List Byte) : Except Exn α :=
  if s.headD 0 ≠ 0 then
    let r := fn s
    if r.2 = strlen s then .ok r.1 else .error Exn.StrToNumError
  else .error Exn.StrToNumError

/-! ## `Tuner` (tune.cc lines 43-102) -/

/-- The table `note_name_table`, for A B C D E F G. -/
def note_name_table : List Int := [9, 11, 0, 2, 4, 5, 7]

/-- Read `a[i]` of a C array; outside the array the read is undefined. -/
def array_read (a : List Int) (i : Int) : Except Exn Int :=
  if 0 ≤ i then
    match a.get? i.toNat with
    | some v => .ok v
    | none => .error Exn.OutOfBounds
  else .error Exn.OutOfBounds

/-- Read `s[i]` or `s.c_str()[i]`: position `s.length()` holds the terminating
NUL, anything further is outside the buffer. -/
def string_read (s : List Byte) (i : Nat) : Except Exn Byte :=
  match s.get? i with
  | some c => .ok c
  | none => if i = s.length then .ok 0 else .error Exn.OutOfBounds

/-- Line 67, `char bare_name = note_name[0] & 0xdf`: the first character is
promoted to `int`, masked, and stored back in a `char`. -/
def bare_name_of (sc : Bool) (c0 : Byte) : Int :=
  to_char sc (int_and (char_val sc c0) 0xdf)

/-- The `try`/`catch(StrToNumError)` around the octave parse: only that
exception is turned into `TunerError`. -/
def parse_octave (sharp_ptr : List Byte) : Except Exn Int :=
  match strtonum strtol sharp_ptr with
  | .ok v => .ok v
  | .error Exn.StrToNumError => .error Exn.TunerError
  | .error e => .error e

/-- The body of `Tuner::note_name_to_midi_id` up to, and without, the final
`uint8_t(midi_id)`: the `int midi_id` that reaches the `return`. -/
def note_name_to_midi_int (sc : Bool) (note_name : List Byte) : Except Exn Int :=
  if note_name.length < 2 then .error Exn.TunerError
  else
    match string_read note_name 0 with
    | .error e => .error e
    | .ok c0 =>
      let bare_name := bare_name_of sc c0
      if bare_name < 65 ∨ bare_name > 71 then .error Exn.TunerError
      else
        match array_read note_name_table (bare_name - 65) with
        | .error e => .error e
        | .ok base =>
          match string_read note_name 1 with
          | .error e => .error e
          | .ok c1 =>
            let sharp : Bool := c1.val == 35
            let midi_id : Int := if sharp then base + 1 else base
            let sharp_ptr := note_name.drop (if sharp then 2 else 1)
            match parse_octave sharp_ptr with
            | .error e => .error e
            | .ok octave_id =>
              if octave_id < -1 ∨ octave_id > 9 then .error Exn.TunerError
              else
                let midi_id := midi_id + (to_int octave_id + 1) * 12
                if midi_id ≥ 128 then .error Exn.TunerError
                else .ok midi_id

/-- `Tuner::note_name_to_midi_id`. -/
def note_name_to_midi_id (sc : Bool) (note_name : List Byte) : Except Exn Nat :=
  match note_name_to_midi_int sc note_name with
  | .ok midi_id => .ok (to_uint8 midi_id)
  | .error e => .error e

/-- The constant `M_2_POW_INV_12`, as the exact decimal the source writes. -/
def M_2_POW_INV_12 : ℚ := 1.05946309435929526456

/-- `Tuner::midi_id_to_freq(uint8_t)`, in exact arithmetic. -/
def midi_id_to_freq (midi_id : Nat) : ℚ :=
  M_2_POW_INV_12 ^ ((midi_id : Int) - 69) * 440

/-- `Tuner::midi_id_to_freq(double)`, over the real numbers, with the same
constant (the source declares it once in each overload, with the same digits).
`std::pow` with a real exponent is the real power, which has no executable
definition. -/
noncomputable def midi_id_to_freq_double (midi_id : ℝ) : ℝ :=
  (M_2_POW_INV_12 : ℝ) ^ (midi_id - 69) * 440

/-- `Tuner::note_name_to_freq`. -/
def note_name_to_freq (sc : Bool) (note_name : List Byte) : Except Exn ℚ :=
  match note_name_to_midi_id sc note_name with
  | .ok midi_id => .ok (midi_id_to_freq midi_id)
  | .error e => .error e

instance {ε α : Type} [DecidableEq ε] [DecidableEq α] : DecidableEq (Except ε α)
  | .ok a, .ok b => if h : a = b then isTrue (by rw [h]) else isFalse (by intro h2; cases h2; exact h rfl)
  | .error a, .error b => if h : a = b then isTrue (by rw [h]) else isFalse (by intro h2; cases h2; exact h rfl)
  | .ok _, .error _ => isFalse (by intro h; cases h)
  | .error _, .ok _ => isFalse (by intro h; cases h)

/-! ## Notions of the written specification -/

/-- The first character is one of `A`..`G` or `a`..`g`. -/
def is_note_letter (c : Byte) : Bool :=
  (65 ≤ c.val && c.val ≤ 71) || (97 ≤ c.val && c.val ≤ 103)

/-- The pitch-class table of the specification, `{A:9, B:11, C:0, D:2, E:4,
F:5, G:7}`, read case-insensitively; `0` for any other byte. -/
def table (c : Byte) : Int :=
  if c = ch 'A' ∨ c = ch 'a' then 9
  else if c = ch 'B' ∨ c = ch 'b' then 11
  else if c = ch 'C' ∨ c = ch 'c' then 0
  else if c = ch 'D' ∨ c = ch 'd' then 2
  else if c = ch 'E' ∨ c = ch 'e' then 4
  else if c = ch 'F' ∨ c = ch 'f' then 5
  else if c = ch 'G' ∨ c = ch 'g' then 7
  else 0

/-- The digits of `n` in decimal, most significant first, in front of `acc`. -/
def decimal_nat_aux : Nat → Nat → List Byte → List Byte
  | 0, _, acc => acc
  | fuel + 1, n, acc =>
    let acc2 := Fin.ofNat (48 + n % 10) :: acc
    if n / 10 = 0 then acc2 else decimal_nat_aux fuel (n / 10) acc2

/-- A natural number written in decimal, without leading zeros (`0` is "0"). -/
def decimal_nat (n : Nat) : List Byte := decimal_nat_aux (n + 1) n []

/-- An integer written as a plain decimal integer: a minus sign for a
negative one, then the digits of its absolute value. -/
def decimal (z : Int) : List Byte :=
  if z < 0 then 45 :: decimal_nat z.natAbs else decimal_nat z.natAbs

/-- The note name `L`, then `#` when `S`, then the octave `O` in decimal. -/
def spelled (L : Byte) (S : Bool) (O : Int) : List Byte :=
  L :: ((if S then [35] else []) ++ decimal O)

/-- A spelling of the MIDI id `m`: pitch class `m % 12` with sharps for the
black keys, octave `m / 12 - 1`. -/
def canonical_name (m : Nat) : List Byte :=
  spelled ((str "CCDDEFFGGAAB").getD (m % 12) 0)
    ([false, true, false, true, false, false, true, false, true, false, true, false].getD
      (m % 12) false)
    ((m / 12 : Nat) - 1)

/-- The upper-case form of an ASCII letter; other bytes are unchanged. -/
def upper_of (l : Byte) : Byte :=
  if 97 ≤ l.val ∧ l.val ≤ 122 then Fin.ofNat (l.val - 32) else l

/-! ## Pieces of the code, named for the proofs

`octave_step` and `after_letter` repeat lines 72-90 of `note_name_to_midi_id`
as functions of their own; `midi_int_letter` below proves that the body of
`note_name_to_midi_int` is `after_letter` once the letter is accepted. -/

/-- Lines 84-90 of `note_name_to_midi_id`, without the final narrowing: the
octave check, the sum, and the check against 128. -/
def octave_step (midi_id octave_id : Int) : Except Exn Int :=
  if octave_id < -1 ∨ octave_id > 9 then .error Exn.TunerError
  else if midi_id + (to_int octave_id + 1) * 12 ≥ 128 then .error Exn.TunerError
  else .ok (midi_id + (to_int octave_id + 1) * 12)

/-- The part of `note_name_to_midi_id` after the table lookup (lines 72-90),
as a function of the table value and of the bytes after the letter. -/
def after_letter (base : Int) (t : List Byte) : Except Exn Int :=
  let sharp : Bool := (t.headD 0).val == 35
  match parse_octave (t.drop (if sharp then 1 else 0)) with
  | .error e => .error e
  | .ok octave_id => octave_step (if sharp then base + 1 else base) octave_id

/-- The `long` nearest to `z`. -/
def clamp_long (z : Int) : Int :=
  if z < LONG_MIN then LONG_MIN else if LONG_MAX < z then LONG_MAX else z

/-- What `strtol` returns for digits of value `n` behind a sign. -/
def saturate (neg : Bool) (n : Nat) : Int :=
  if neg then (if -(n : Int) < LONG_MIN then LONG_MIN else -(n : Int))
  else (if LONG_MAX < (n : Int) then LONG_MAX else (n : Int))

/-! ## Facts about single bytes -/

set_option maxRecDepth 100000 in
theorem bare_name_cases : ∀ (sc : Bool) (c : Byte),
    (is_note_letter c = true →
      ¬ (bare_name_of sc c < 65 ∨ bare_name_of sc c > 71) ∧
      array_read note_name_table (bare_name_of sc c - 65) = .ok (table c)) ∧
    (is_note_letter c = false → (bare_name_of sc c < 65 ∨ bare_name_of sc c > 71)) := by
  decide

set_option maxRecDepth 100000 in
theorem digit_facts : ∀ c : Byte, isdigit c = true →
    isspace c = false ∧ c ≠ 45 ∧ c ≠ 43 ∧ c ≠ 0 ∧ c.val ≠ 35 := by
  decide

set_option maxRecDepth 100000 in
theorem digit_ofNat : ∀ k : Fin 10,
    isdigit (Fin.ofNat (48 + k.val) : Byte) = true ∧
    (Fin.ofNat (48 + k.val) : Byte).val - 48 = k.val := by
  decide

/-! ## Runs of bytes -/

theorem takeWhile_run {p : Byte → Bool} (ds rest : List Byte)
    (hd : ∀ d ∈ ds, p d = true) (hr : ∀ c, rest.head? = some c → p c = false) :
    (ds ++ rest).takeWhile p = ds := by
  induction ds with
  | nil =>
    cases rest with
    | nil => rfl
    | cons c r => simp [List.takeWhile_cons, hr c (by simp)]
  | cons d ds ih =>
    have h1 : p d = true := hd d (by simp)
    have h2 : ∀ x ∈ ds, p x = true := fun x hx => hd x (by simp [hx])
    simp [List.takeWhile_cons, h1, ih h2]

theorem digits_value_snoc (ds : List Byte) (d : Byte) :
    digits_value (ds ++ [d]) = digits_value ds * 10 + (d.val - 48) := by
  simp [digits_value, List.foldl_append]

/-! ## Decimal numerals -/

theorem decimal_nat_aux_spec : ∀ (fuel n : Nat) (acc : List Byte), n < fuel →
    ∃ ds, decimal_nat_aux fuel n acc = ds ++ acc ∧ ds ≠ [] ∧
      (∀ d ∈ ds, isdigit d = true) ∧ digits_value ds = n := by
  intro fuel
  induction fuel with
  | zero => intro n acc h; omega
  | succ fuel ih =>
    intro n acc h
    have hk : n % 10 < 10 := Nat.mod_lt _ (by decide)
    have hdig := digit_ofNat ⟨n % 10, hk⟩
    simp only at hdig
    unfold decimal_nat_aux
    by_cases h0 : n / 10 = 0
    · refine ⟨[Fin.ofNat (48 + n % 10)], ?_, by simp, ?_, ?_⟩
      · simp [h0]
      · intro d hd
        simp only [List.mem_singleton] at hd
        rw [hd]; exact hdig.1
      · simp only [digits_value, List.foldl_cons, List.foldl_nil, hdig.2]
        omega
    · have hlt : n / 10 < fuel := by omega
      obtain ⟨ds, h1, _, h3, h4⟩ := ih (n / 10) (Fin.ofNat (48 + n % 10) :: acc) hlt
      refine ⟨ds ++ [Fin.ofNat (48 + n % 10)], ?_, by simp, ?_, ?_⟩
      · simp [h0, h1]
      · intro d hd
        rcases List.mem_append.1 hd with hd | hd
        · exact h3 d hd
        · simp only [List.mem_singleton] at hd
          rw [hd]; exact hdig.1
      · rw [digits_value_snoc, h4, hdig.2]
        omega

theorem decimal_nat_spec (n : Nat) :
    decimal_nat n ≠ [] ∧ (∀ d ∈ decimal_nat n, isdigit d = true) ∧
      digits_value (decimal_nat n) = n := by
  obtain ⟨ds, h1, h2, h3, h4⟩ := decimal_nat_aux_spec (n + 1) n [] (Nat.lt_succ_self n)
  have h : decimal_nat n = ds := by simp [decimal_nat, h1]
  rw [h]
  exact ⟨h2, h3, h4⟩

/-! ## `strtol` on a well-formed numeral -/

theorem strtol_shape (W S D T : List Byte)
    (hW : ∀ c ∈ W, isspace c = true)
    (hS : S = [] ∨ S = [43] ∨ S = [45])
    (hD : D ≠ []) (hDd : ∀ d ∈ D, isdigit d = true)
    (hT : ∀ c, T.head? = some c → isdigit c = false) :
    strtol (W ++ (S ++ (D ++ T))) =
      (saturate (S == [45]) (digits_value D), W.length + S.length + D.length) := by
  obtain ⟨d, D2, rfl⟩ := List.exists_cons_of_ne_nil hD
  have hd := digit_facts d (hDd d (by simp))
  have hX : ∀ c, (S ++ (d :: D2 ++ T)).head? = some c → isspace c = false := by
    intro c hc
    rcases hS with rfl | rfl | rfl
    · simp at hc; rw [← hc]; exact hd.1
    · simp at hc; rw [← hc]; decide
    · simp at hc; rw [← hc]; decide
  have h1 : (W ++ (S ++ (d :: D2 ++ T))).takeWhile isspace = W := takeWhile_run W _ hW hX
  have h2 : (d :: D2 ++ T).takeWhile isdigit = d :: D2 := takeWhile_run (d :: D2) T hDd hT
  have h3 : (d :: (D2 ++ T)).takeWhile isdigit = d :: D2 := h2
  unfold strtol
  simp only [h1, List.drop_left]
  rcases hS with rfl | rfl | rfl
  · simp [h3, saturate, hd.2.1, hd.2.2.1]
  · simp [h3, saturate]
  · simp [h3, saturate]

set_option maxRecDepth 100000 in
theorem space_facts : ∀ c : Byte, isspace c = true → c ≠ 0 := by
  decide

theorem strlen_run (ds T : List Byte) (hd : ∀ d ∈ ds, d ≠ 0)
    (hT : T = [] ∨ T.head? = some 0) : strlen (ds ++ T) = ds.length := by
  unfold strlen
  rw [takeWhile_run ds T]
  · intro d h
    have := hd d h
    simpa [Fin.ext_iff] using this
  · intro c hc
    rcases hT with rfl | h
    · simp at hc
    · rw [h] at hc
      cases hc
      rfl

theorem strtonum_shape (W S D T : List Byte)
    (hW : ∀ c ∈ W, isspace c = true)
    (hS : S = [] ∨ S = [43] ∨ S = [45])
    (hD : D ≠ []) (hDd : ∀ d ∈ D, isdigit d = true)
    (hT : T = [] ∨ T.head? = some 0) :
    strtonum strtol (W ++ (S ++ (D ++ T))) =
      .ok (saturate (S == [45]) (digits_value D)) := by
  have hT2 : ∀ c, T.head? = some c → isdigit c = false := by
    intro c hc
    rcases hT with rfl | h
    · simp at hc
    · rw [h] at hc
      cases hc
      rfl
  have hnz : ∀ c ∈ W ++ (S ++ D), c ≠ 0 := by
    intro c hc
    rcases List.mem_append.1 hc with h | h
    · exact space_facts c (hW c h)
    · rcases List.mem_append.1 h with h | h
      · rcases hS with rfl | rfl | rfl
        · simp at h
        · simp at h; rw [h]; decide
        · simp at h; rw [h]; decide
      · exact (digit_facts c (hDd c h)).2.2.2.1
  have hlen : strlen (W ++ (S ++ (D ++ T))) = W.length + S.length + D.length := by
    have := strlen_run (W ++ (S ++ D)) T hnz hT
    simpa [List.append_assoc, Nat.add_assoc] using this
  have hhead : (W ++ (S ++ (D ++ T))).headD 0 ≠ 0 := by
    obtain ⟨d, D2, rfl⟩ := List.exists_cons_of_ne_nil hD
    cases W with
    | cons w W2 => exact hnz w (by simp)
    | nil =>
      rcases hS with rfl | rfl | rfl
      · exact hnz d (by simp)
      · show (43 : Byte) ≠ 0
        decide
      · show (45 : Byte) ≠ 0
        decide
  unfold strtonum
  rw [if_pos hhead, strtol_shape W S D T hW hS hD hDd hT2]
  simp [hlen]

theorem parse_octave_shape (W S D T : List Byte)
    (hW : ∀ c ∈ W, isspace c = true)
    (hS : S = [] ∨ S = [43] ∨ S = [45])
    (hD : D ≠ []) (hDd : ∀ d ∈ D, isdigit d = true)
    (hT : T = [] ∨ T.head? = some 0) :
    parse_octave (W ++ (S ++ (D ++ T))) =
      .ok (saturate (S == [45]) (digits_value D)) := by
  unfold parse_octave
  rw [strtonum_shape W S D T hW hS hD hDd hT]

theorem saturate_decimal (z : Int) :
    saturate (decide (z < 0)) z.natAbs = clamp_long z := by
  unfold saturate clamp_long LONG_MIN LONG_MAX
  by_cases h : z < 0
  · have e : (z.natAbs : Int) = -z := Int.ofNat_natAbs_of_nonpos (by omega)
    have hd : decide (z < 0) = true := by simp [h]
    rw [hd, e]
    clear e hd
    simp only [if_true]
    split_ifs <;> omega
  · have e : (z.natAbs : Int) = z := Int.natAbs_of_nonneg (by omega)
    have hd : decide (z < 0) = false := by simp [h]
    rw [hd, e]
    clear e hd
    simp only [Bool.false_eq_true, if_false]
    split_ifs <;> omega

theorem parse_octave_decimal (z : Int) :
    parse_octave (decimal z) = .ok (clamp_long z) := by
  obtain ⟨h1, h2, h3⟩ := decimal_nat_spec z.natAbs
  rw [← saturate_decimal]
  unfold decimal
  by_cases h : z < 0
  · have := parse_octave_shape [] [45] (decimal_nat z.natAbs) [] (by simp) (by simp) h1 h2 (by simp)
    simpa [h, h3] using this
  · have := parse_octave_shape [] [] (decimal_nat z.natAbs) [] (by simp) (by simp) h1 h2 (by simp)
    simpa [h, h3] using this

/-! ## The letter and the sharp sign -/

theorem midi_int_letter (sc : Bool) (L : Byte) (t : List Byte)
    (hL : is_note_letter L = true) :
    note_name_to_midi_int sc (L :: t) =
      if t = [] then .error Exn.TunerError else after_letter (table L) t := by
  obtain ⟨hb, ha⟩ := (bare_name_cases sc L).1 hL
  cases t with
  | nil => simp [note_name_to_midi_int]
  | cons c1 r =>
    unfold note_name_to_midi_int after_letter octave_step
    simp only [string_read, List.get?, List.length_cons, hb, ha]
    by_cases hs : c1.val = 35 <;> simp [hs]

theorem midi_int_not_letter (sc : Bool) (c : Byte) (t : List Byte)
    (hL : is_note_letter c = false) :
    note_name_to_midi_int sc (c :: t) = .error Exn.TunerError := by
  have hb := (bare_name_cases sc c).2 hL
  unfold note_name_to_midi_int
  by_cases h : (c :: t).length < 2
  · rw [if_pos h]
  · rw [if_neg h]
    simp [string_read, hb]

set_option maxRecDepth 100000 in
theorem table_bounds : ∀ c : Byte, 0 ≤ table c ∧ table c ≤ 11 := by
  decide

set_option maxRecDepth 100000 in
theorem upper_is_note_letter : ∀ L : Byte, L ∈ str "ABCDEFG" → is_note_letter L = true := by
  decide

theorem decimal_head (z : Int) :
    decimal z ≠ [] ∧ ((decimal z).headD 0).val ≠ 35 := by
  obtain ⟨h1, h2, _⟩ := decimal_nat_spec z.natAbs
  unfold decimal
  by_cases h : z < 0
  · simp only [h, if_true, List.headD_cons]
    exact ⟨by simp, by decide⟩
  · obtain ⟨d, ds, hd⟩ := List.exists_cons_of_ne_nil h1
    have h3 := (digit_facts d (h2 d (by simp [hd]))).2.2.2.2
    simp [h, hd, h3]

theorem clamp_long_inside (z : Int) (h1 : -1 ≤ z) (h2 : z ≤ 9) : clamp_long z = z := by
  unfold clamp_long LONG_MIN LONG_MAX
  split_ifs <;> omega

theorem clamp_long_outside (z : Int) (h : z < -1 ∨ 9 < z) :
    clamp_long z < -1 ∨ clamp_long z > 9 := by
  unfold clamp_long LONG_MIN LONG_MAX
  split_ifs <;> omega

theorem after_letter_sharp (base : Int) (t : List Byte) :
    after_letter base (35 :: t) =
      match parse_octave t with
      | .error e => .error e
      | .ok octave_id => octave_step (base + 1) octave_id := by
  have e : ((35 : Byte).val == 35) = true := by decide
  unfold after_letter
  simp only [List.headD_cons, e, if_true, List.drop_succ_cons, List.drop_zero]

theorem after_letter_plain (base : Int) (t : List Byte) (h : (t.headD 0).val ≠ 35) :
    after_letter base t =
      match parse_octave t with
      | .error e => .error e
      | .ok octave_id => octave_step base octave_id := by
  have e : ((t.headD 0).val == 35) = false := by simpa using h
  unfold after_letter
  simp only [e, Bool.false_eq_true, if_false, List.drop_zero]

theorem to_int_small (z : Int) (h1 : -2147483648 ≤ z) (h2 : z < 2147483648) :
    to_int z = z := by
  unfold to_int
  omega

theorem to_uint8_small (z : Int) (h1 : 0 ≤ z) (h2 : z < 256) :
    ((to_uint8 z : Nat) : Int) = z := by
  unfold to_uint8
  omega

theorem octave_step_inside (m O : Int) (h1 : -1 ≤ O) (h2 : O ≤ 9) :
    octave_step m O =
      if 128 ≤ m + (O + 1) * 12 then .error Exn.TunerError else .ok (m + (O + 1) * 12) := by
  have h3 : to_int O = O := to_int_small O (by omega) (by omega)
  have h4 : ¬ (O < -1 ∨ O > 9) := by omega
  unfold octave_step
  rw [if_neg h4, h3]

theorem octave_step_outside (m O : Int) (h : O < -1 ∨ O > 9) :
    octave_step m O = .error Exn.TunerError := by
  unfold octave_step
  rw [if_pos h]

theorem after_letter_spelled (base : Int) (S : Bool) (O : Int) :
    after_letter base ((if S then [35] else []) ++ decimal O) =
      octave_step (base + (if S then 1 else 0)) (clamp_long O) := by
  obtain ⟨_, hh⟩ := decimal_head O
  cases S with
  | true =>
    simp only [if_true, List.singleton_append]
    rw [after_letter_sharp, parse_octave_decimal]
  | false =>
    simp only [Bool.false_eq_true, if_false, List.nil_append, add_zero]
    rw [after_letter_plain _ _ hh, parse_octave_decimal]

theorem midi_int_spelled (sc : Bool) (L : Byte) (S : Bool) (O : Int)
    (hL : is_note_letter L = true) :
    note_name_to_midi_int sc (spelled L S O) =
      octave_step (table L + (if S then 1 else 0)) (clamp_long O) := by
  have hne : ((if S then [35] else []) ++ decimal O) ≠ [] := by
    have := (decimal_head O).1
    simp [this]
  unfold spelled
  rw [midi_int_letter sc L _ hL, if_neg hne, after_letter_spelled]

theorem midi_id_of_int (sc : Bool) (s : List Byte) :
    note_name_to_midi_id sc s =
      match note_name_to_midi_int sc s with
      | .ok midi_id => .ok (to_uint8 midi_id)
      | .error e => .error e := rfl

theorem strtonum_error {α : Type} (fn : List Byte → α × Nat) (s : List Byte) (e : Exn)
    (h : strtonum fn s = .error e) : e = Exn.StrToNumError := by
  unfold strtonum at h
  by_cases h1 : s.headD 0 ≠ 0
  · rw [if_pos h1] at h
    by_cases h2 : (fn s).2 = strlen s
    · simp only [h2, if_true] at h
      cases h
    · simp only [h2, if_false] at h
      cases h
      rfl
  · rw [if_neg h1] at h
    cases h
    rfl

theorem parse_octave_error (p : List Byte) (e : Exn)
    (h : parse_octave p = .error e) : e = Exn.TunerError := by
  unfold parse_octave at h
  cases hs : strtonum strtol p with
  | ok v => rw [hs] at h; cases h
  | error e2 =>
    have := strtonum_error strtol p e2 hs
    subst this
    rw [hs] at h
    cases h
    rfl

theorem octave_step_result (m O : Int) (hm : 0 ≤ m) :
    octave_step m O = .error Exn.TunerError ∨
      ∃ r, octave_step m O = .ok r ∧ 0 ≤ r ∧ r < 128 := by
  unfold octave_step
  by_cases h1 : O < -1 ∨ O > 9
  · left; rw [if_pos h1]
  · have h3 : to_int O = O := to_int_small O (by omega) (by omega)
    rw [if_neg h1, h3]
    by_cases h2 : m + (O + 1) * 12 ≥ 128
    · left; rw [if_pos h2]
    · right
      rw [if_neg h2]
      exact ⟨_, rfl, by omega, by omega⟩

theorem after_letter_result (base : Int) (t : List Byte) (hb : 0 ≤ base) :
    after_letter base t = .error Exn.TunerError ∨
      ∃ r, after_letter base t = .ok r ∧ 0 ≤ r ∧ r < 128 := by
  unfold after_letter
  simp only
  cases hp : parse_octave (t.drop (if ((t.headD 0).val == 35) = true then 1 else 0)) with
  | error e =>
    left
    rw [parse_octave_error _ e hp]
  | ok o =>
    simp only
    apply octave_step_result
    split_ifs <;> omega

/-- Every run of the body ends in `TunerError` or in an `int` in `[0,127]`. -/
theorem midi_int_result (sc : Bool) (s : List Byte) :
    note_name_to_midi_int sc s = .error Exn.TunerError ∨
      ∃ r, note_name_to_midi_int sc s = .ok r ∧ 0 ≤ r ∧ r < 128 := by
  cases s with
  | nil => left; rfl
  | cons c t =>
    by_cases hL : is_note_letter c = true
    · rw [midi_int_letter sc c t hL]
      by_cases ht : t = []
      · left; rw [if_pos ht]
      · rw [if_neg ht]
        exact after_letter_result _ _ (table_bounds c).1
    · left
      exact midi_int_not_letter sc c t (by simpa using hL)

theorem strlen_ne_zero (s : List Byte) : strlen s ≠ 0 ↔ s.headD 0 ≠ 0 := by
  unfold strlen
  cases s with
  | nil => simp
  | cons c t =>
    by_cases h : c = 0
    · subst h
      simp [List.takeWhile_cons]
    · have h2 : c.val ≠ 0 := fun e => h (Fin.ext e)
      simp [List.takeWhile_cons, h, h2]

set_option maxRecDepth 100000 in
theorem canonical_name_midi_id : ∀ (sc : Bool) (m : Fin 128),
    note_name_to_midi_id sc (canonical_name m.val) = .ok m.val := by
  decide

set_option maxRecDepth 100000 in
theorem lower_letter_facts : ∀ l : Byte, l ∈ str "abcdefg" →
    is_note_letter l = true ∧ is_note_letter (upper_of l) = true ∧
      table l = table (upper_of l) := by
  decide

theorem strtol_bad_head (c : Byte) (t : List Byte) (hw : isspace c = false)
    (hd : isdigit c = false) (hp : c ≠ 43) (hm : c ≠ 45) :
    strtol (c :: t) = (0, 0) := by
  unfold strtol
  simp [List.takeWhile_cons, hw, hd, hp, hm]

theorem strtonum_strtol_head (c : Byte) (t : List Byte) (hw : isspace c = false)
    (hd : isdigit c = false) (hp : c ≠ 43) (hm : c ≠ 45) :
    strtonum strtol (c :: t) = .error Exn.StrToNumError := by
  unfold strtonum
  by_cases h0 : (c :: t).headD 0 ≠ 0
  · have h1 : strlen (c :: t) ≠ 0 := (strlen_ne_zero _).2 h0
    rw [if_pos h0, strtol_bad_head c t hw hd hp hm]
    simp only
    rw [if_neg (fun h => h1 h.symm)]
  · rw [if_neg h0]

theorem parse_octave_bad_head (c : Byte) (t : List Byte) (hw : isspace c = false)
    (hd : isdigit c = false) (hp : c ≠ 43) (hm : c ≠ 45) :
    parse_octave (c :: t) = .error Exn.TunerError := by
  have h := (strtonum_strtol_head c t hw hd hp hm)
  unfold parse_octave
  rw [h]

theorem strtonum_strtol_eq (s : List Byte) :
    strtonum strtol s =
      (if strlen s ≠ 0 ∧ (strtol s).2 = strlen s then .ok (strtol s).1
        else .error Exn.StrToNumError) := by
  unfold strtonum
  by_cases h1 : s.headD 0 ≠ 0
  · have h3 := (strlen_ne_zero s).2 h1
    by_cases h2 : (strtol s).2 = strlen s
    · simp only [h1, h2, h3, ne_eq, not_false_eq_true, and_self, if_true]
    · simp only [h1, h2, h3, ne_eq, not_false_eq_true, and_false, if_true, if_false]
  · have h3 : ¬ strlen s ≠ 0 := fun h => h1 ((strlen_ne_zero s).1 h)
    simp only [h1, h3, false_and, if_false]

/-! ## The shape of every numeral `strtol` converts -/

theorem drop_takeWhile_length (f : Byte → Bool) (p : List Byte) :
    p.drop (p.takeWhile f).length = p.dropWhile f := by
  induction p with
  | nil => rfl
  | cons a p ih =>
    by_cases h : f a = true
    · simp [List.takeWhile_cons, List.dropWhile_cons, h, ih]
    · simp [List.takeWhile_cons, List.dropWhile_cons, h]

theorem head_dropWhile (f : Byte → Bool) (p : List Byte) (c : Byte)
    (h : (p.dropWhile f).head? = some c) : f c = false := by
  induction p with
  | nil => simp at h
  | cons a p ih =>
    by_cases ha : f a = true
    · rw [List.dropWhile_cons, if_pos ha] at h
      exact ih h
    · rw [List.dropWhile_cons, if_neg ha] at h
      simp only [List.head?_cons, Option.some.injEq] at h
      rw [← h]
      simpa using ha

theorem mem_takeWhile (f : Byte → Bool) (p : List Byte) (c : Byte)
    (h : c ∈ p.takeWhile f) : f c = true := by
  induction p with
  | nil => simp at h
  | cons a p ih =>
    by_cases ha : f a = true
    · rw [List.takeWhile_cons, if_pos ha] at h
      rcases List.mem_cons.1 h with e | e
      · rw [e]; exact ha
      · exact ih e
    · rw [List.takeWhile_cons, if_neg ha] at h
      simp at h

/-- Whenever `strtol` converts something, its input is white space, an
optional sign, a non-empty run of digits, and a rest that starts with no
digit. -/
theorem strtol_decompose (p : List Byte) (h : (strtol p).2 ≠ 0) :
    ∃ W S D T, p = W ++ (S ++ (D ++ T)) ∧ (∀ c ∈ W, isspace c = true) ∧
      (S = [] ∨ S = [43] ∨ S = [45]) ∧ D ≠ [] ∧ (∀ d ∈ D, isdigit d = true) ∧
      (∀ c, T.head? = some c → isdigit c = false) := by
  have hp : p = p.takeWhile isspace ++ p.dropWhile isspace :=
    (List.takeWhile_append_dropWhile isspace p).symm
  unfold strtol at h
  simp only [drop_takeWhile_length] at h
  generalize p.dropWhile isspace = X at h hp
  have hW : ∀ c ∈ p.takeWhile isspace, isspace c = true := fun c hc => mem_takeWhile _ _ c hc
  generalize p.takeWhile isspace = W at h hp hW
  have key : ∀ (S Y : List Byte), (S = [] ∨ S = [43] ∨ S = [45]) → X = S ++ Y →
      Y.takeWhile isdigit ≠ [] →
      ∃ W S D T, p = W ++ (S ++ (D ++ T)) ∧ (∀ c ∈ W, isspace c = true) ∧
        (S = [] ∨ S = [43] ∨ S = [45]) ∧ D ≠ [] ∧ (∀ d ∈ D, isdigit d = true) ∧
        (∀ c, T.head? = some c → isdigit c = false) := by
    intro S Y hS hX hY
    refine ⟨W, S, Y.takeWhile isdigit, Y.dropWhile isdigit, ?_, hW, hS, hY,
      fun d hd => mem_takeWhile _ _ d hd, fun c hc => head_dropWhile _ _ c hc⟩
    rw [List.takeWhile_append_dropWhile, ← hX]
    exact hp
  cases X with
  | nil => simp at h
  | cons x Y =>
    by_cases h45 : x = 45
    · subst h45
      apply key [45] Y (by simp) rfl
      intro hY
      simp [hY] at h
    · by_cases h43 : x = 43
      · subst h43
        apply key [43] Y (by simp) rfl
        intro hY
        simp [hY] at h
      · apply key [] (x :: Y) (by simp) rfl
        intro hY
        simp [h45, h43, hY] at h

theorem strlen_append (p q : List Byte) (hp : ∀ x ∈ p, x ≠ 0) :
    strlen (p ++ q) = p.length + strlen q := by
  induction p with
  | nil => simp
  | cons a p ih =>
    have ha : a.val ≠ 0 := fun e => hp a (by simp) (Fin.ext e)
    have ih2 := ih (fun x hx => hp x (by simp [hx]))
    unfold strlen at ih2 ⊢
    simp [List.takeWhile_cons, ha, ih2]
    omega

/-- A numeral that `strtonum` accepts, with no NUL in it, is no longer accepted
once a byte that is neither a digit nor NUL is put behind it. -/
theorem strtonum_garbage (p : List Byte) (o : Int) (c : Byte) (t : List Byte)
    (hok : strtonum strtol p = .ok o) (hp : ∀ x ∈ p, x ≠ 0)
    (hd : isdigit c = false) (hc : c ≠ 0) :
    strtonum strtol (p ++ c :: t) = .error Exn.StrToNumError := by
  have hspec := strtonum_strtol_eq p
  rw [hok] at hspec
  by_cases hcond : strlen p ≠ 0 ∧ (strtol p).2 = strlen p
  · obtain ⟨h1, h2⟩ := hcond
    have hlen : strlen p = p.length := by
      have := strlen_append p [] hp
      simpa [strlen] using this
    obtain ⟨W, S, D, T, e, hW, hS, hD, hDd, hT⟩ := strtol_decompose p (by omega)
    have hsh := strtol_shape W S D T hW hS hD hDd hT
    rw [← e] at hsh
    have hT0 : T = [] := by
      have h3 : (strtol p).2 = W.length + S.length + D.length := by rw [hsh]
      have h4 : p.length = W.length + (S.length + (D.length + T.length)) := by
        rw [e]; simp
      have : T.length = 0 := by omega
      exact List.length_eq_zero.1 this
    subst hT0
    have e2 : p ++ c :: t = W ++ (S ++ (D ++ c :: t)) := by
      rw [e]; simp
    have hsh2 := strtol_shape W S D (c :: t) hW hS hD hDd (by
      intro x hx
      simp only [List.head?_cons, Option.some.injEq] at hx
      rw [← hx]; exact hd)
    rw [← e2] at hsh2
    have hl2 : strlen (p ++ c :: t) = p.length + strlen (c :: t) := strlen_append p _ hp
    have hl3 : strlen (c :: t) ≠ 0 := (strlen_ne_zero _).2 (by simpa using hc)
    have hne : ¬ (strlen (p ++ c :: t) ≠ 0 ∧ (strtol (p ++ c :: t)).2 = strlen (p ++ c :: t)) := by
      rintro ⟨_, h6⟩
      rw [hsh2, hl2] at h6
      have h4 : p.length = W.length + (S.length + (D.length + 0)) := by
        rw [e]; simp
      simp only at h6
      omega
    rw [strtonum_strtol_eq, if_neg hne]
  · rw [if_neg hcond] at hspec
    cases hspec

theorem parse_octave_garbage (p : List Byte) (o : Int) (c : Byte) (t : List Byte)
    (hok : parse_octave p = .ok o) (hp : ∀ x ∈ p, x ≠ 0)
    (hd : isdigit c = false) (hc : c ≠ 0) :
    parse_octave (p ++ c :: t) = .error Exn.TunerError := by
  cases hs : strtonum strtol p with
  | error e =>
    unfold parse_octave at hok
    rw [hs] at hok
    cases e <;> cases hok
  | ok v =>
    unfold parse_octave
    rw [strtonum_garbage p v c t hs hp hd hc]

theorem after_letter_garbage (base m : Int) (u : List Byte) (c : Byte) (t : List Byte)
    (hok : after_letter base u = .ok m) (hu : ∀ x ∈ u, x ≠ 0)
    (hd : isdigit c = false) (hc : c ≠ 0) :
    after_letter base (u ++ c :: t) = .error Exn.TunerError := by
  cases u with
  | nil =>
    have hpn : parse_octave [] = .error Exn.TunerError := by decide
    have hal : after_letter base [] = .error Exn.TunerError := by
      unfold after_letter
      simp only [List.drop_nil, hpn]
    rw [hal] at hok
    cases hok
  | cons a u2 =>
    have hu2 : ∀ x ∈ u2, x ≠ 0 := fun x hx => hu x (by simp [hx])
    by_cases ha : a = 35
    · subst ha
      rw [after_letter_sharp] at hok
      rw [List.cons_append, after_letter_sharp]
      cases hpo : parse_octave u2 with
      | error e => rw [hpo] at hok; cases hok
      | ok o => rw [parse_octave_garbage u2 o c t hpo hu2 hd hc]
    · have ha2 : ((a :: u2).headD 0).val ≠ 35 := fun e => ha (Fin.ext e)
      have ha3 : (((a :: u2) ++ c :: t).headD 0).val ≠ 35 := fun e => ha (Fin.ext e)
      rw [after_letter_plain _ _ ha2] at hok
      rw [after_letter_plain _ _ ha3]
      cases hpo : parse_octave (a :: u2) with
      | error e => rw [hpo] at hok; cases hok
      | ok o => rw [parse_octave_garbage (a :: u2) o c t hpo hu hd hc]

/-- Trailing garbage without NUL bytes: a name that is accepted and holds no
NUL byte is rejected once a byte that is neither a digit nor NUL, and anything
after it, is put behind it. -/
theorem trailing_garbage_rejected (sc : Bool) (n : List Byte) (r : Nat) (c : Byte)
    (t : List Byte) (hn : note_name_to_midi_id sc n = .ok r) (hnul : ∀ x ∈ n, x ≠ 0)
    (hd : isdigit c = false) (hc : c ≠ 0) :
    note_name_to_midi_id sc (n ++ c :: t) = .error Exn.TunerError := by
  rw [midi_id_of_int] at hn
  rw [midi_id_of_int]
  cases n with
  | nil => cases hn
  | cons c0 u =>
    by_cases hL : is_note_letter c0 = true
    · rw [midi_int_letter sc c0 u hL] at hn
      rw [List.cons_append, midi_int_letter sc c0 _ hL, if_neg (by simp)]
      by_cases hu : u = []
      · rw [if_pos hu] at hn
        cases hn
      · rw [if_neg hu] at hn
        cases hal : after_letter (table c0) u with
        | error e => rw [hal] at hn; cases hn
        | ok m =>
          rw [after_letter_garbage _ m u c t hal (fun x hx => hnul x (by simp [hx])) hd hc]
    · rw [midi_int_not_letter sc c0 u (by simpa using hL)] at hn
      cases hn

/-! ## The first character -/

set_option maxRecDepth 100000 in
theorem masked_test_letters : ∀ (sc : Bool) (b : Byte),
    (65 ≤ bare_name_of sc b ∧ bare_name_of sc b ≤ 71) ↔ b ∈ str "ABCDEFGabcdefg" := by
  decide

set_option maxRecDepth 100000 in
theorem is_note_letter_iff : ∀ b : Byte,
    is_note_letter b = true ↔ b ∈ str "ABCDEFGabcdefg" := by
  decide

set_option maxRecDepth 100000 in
theorem other_bytes_count :
    ((List.finRange 256).filter (fun b => !is_note_letter b)).length = 242 := by
  decide

/-! ## Other spellings of the octave -/

theorem midi_int_with_octave (sc : Bool) (L : Byte) (S : Bool) (X : List Byte) (o : Int)
    (hL : is_note_letter L = true) (hX : (X.headD 0).val ≠ 35) (hne : X ≠ [])
    (hp : parse_octave X = .ok o) :
    note_name_to_midi_int sc (L :: ((if S then [35] else []) ++ X)) =
      octave_step (table L + (if S then 1 else 0)) o := by
  have hne2 : ((if S then [35] else []) ++ X) ≠ [] := by simp [hne]
  rw [midi_int_letter sc L _ hL, if_neg hne2]
  cases S with
  | true =>
    simp only [if_true, List.singleton_append]
    rw [after_letter_sharp, hp]
  | false =>
    simp only [Bool.false_eq_true, if_false, List.nil_append, add_zero]
    rw [after_letter_plain _ _ hX, hp]

theorem digits_value_leading_zero (ds : List Byte) :
    digits_value (48 :: ds) = digits_value ds := by
  have e : 0 * 10 + ((48 : Byte).val - 48) = 0 := by decide
  unfold digits_value
  rw [List.foldl_cons, e]

theorem parse_octave_plus (O : Int) (h : 0 ≤ O) :
    parse_octave (43 :: decimal O) = .ok (clamp_long O) := by
  obtain ⟨h1, h2, h3⟩ := decimal_nat_spec O.natAbs
  have hn : ¬ O < 0 := by omega
  have := parse_octave_shape [] [43] (decimal_nat O.natAbs) [] (by simp) (by simp) h1 h2
    (by simp)
  rw [← saturate_decimal]
  unfold decimal
  simpa [hn, h3] using this

theorem parse_octave_zero (O : Int) (h : 0 ≤ O) :
    parse_octave (48 :: decimal O) = .ok (clamp_long O) := by
  obtain ⟨h1, h2, h3⟩ := decimal_nat_spec O.natAbs
  have hn : ¬ O < 0 := by omega
  have hd : ∀ d ∈ (48 : Byte) :: decimal_nat O.natAbs, isdigit d = true := by
    intro d hd
    rcases List.mem_cons.1 hd with e | e
    · rw [e]; decide
    · exact h2 d e
  have := parse_octave_shape [] [] (48 :: decimal_nat O.natAbs) [] (by simp) (by simp)
    (List.cons_ne_nil _ _) hd (by simp)
  rw [← saturate_decimal]
  unfold decimal
  simpa [hn, h3, digits_value_leading_zero] using this

theorem midi_id_spelled_inside (sc : Bool) (L : Byte) (S : Bool) (O : Int)
    (hL : is_note_letter L = true) (hlo : -1 ≤ O) (hhi : O ≤ 9) :
    note_name_to_midi_id sc (spelled L S O) =
      if 128 ≤ table L + (if S then 1 else 0) + (O + 1) * 12 then .error Exn.TunerError
      else .ok (to_uint8 (table L + (if S then 1 else 0) + (O + 1) * 12)) := by
  rw [midi_id_of_int, midi_int_spelled sc L S O hL, clamp_long_inside O hlo hhi,
    octave_step_inside _ O hlo hhi]
  split_ifs <;> rfl

/-! ## The equal-temperament ratio -/

theorem ratio_twelfth_power :
    |M_2_POW_INV_12 ^ 12 - 2| < 1 / 10 ^ 15 := by
  rw [abs_lt]
  constructor <;> norm_num [M_2_POW_INV_12]

theorem ratio_gt_one : 1 < M_2_POW_INV_12 := by
  norm_num [M_2_POW_INV_12]

theorem ratio_pos : 0 < M_2_POW_INV_12 := by
  norm_num [M_2_POW_INV_12]

theorem freq_add_twelve (id : Nat) :
    midi_id_to_freq (id + 12) = midi_id_to_freq id * M_2_POW_INV_12 ^ 12 := by
  have h0 : M_2_POW_INV_12 ≠ 0 := ne_of_gt ratio_pos
  have e : (((id + 12 : Nat) : Int) - 69) = ((id : Int) - 69) + 12 := by
    push_cast
    ring
  unfold midi_id_to_freq
  rw [e, zpow_add₀ h0]
  have e12 : M_2_POW_INV_12 ^ (12 : Int) = M_2_POW_INV_12 ^ 12 := by
    norm_cast
  rw [e12]
  ring

theorem array_read_in_bounds (i : Int) (h0 : 0 ≤ i) (h6 : i ≤ 6) :
    ∃ v, array_read note_name_table i = .ok v := by
  obtain ⟨n, rfl⟩ := Int.eq_ofNat_of_zero_le h0
  have hn : n ≤ 6 := by omega
  interval_cases n <;> exact ⟨_, rfl⟩

/-! ## White space in front of the octave -/

set_option maxRecDepth 100000 in
theorem space_not_other : ∀ c : Byte, isspace c = true →
    is_note_letter c = false ∧ isdigit c = false ∧ c ≠ 43 ∧ c ≠ 45 ∧ c.val ≠ 35 := by
  decide

theorem strtol_skip_space (W Y : List Byte) (hW : ∀ c ∈ W, isspace c = true)
    (hY : ∀ c, Y.head? = some c → isspace c = false) :
    strtol (W ++ Y) =
      ((strtol Y).1, if (strtol Y).2 = 0 then 0 else W.length + (strtol Y).2) := by
  have h1 : (W ++ Y).takeWhile isspace = W := takeWhile_run W Y hW hY
  have h2 : Y.takeWhile isspace = [] := by
    have := takeWhile_run [] Y (by simp) hY
    simpa using this
  unfold strtol
  simp only [h1, h2, List.drop_left, List.length_nil, List.drop_zero]
  by_cases hds : (List.takeWhile isdigit
      (List.drop (if (Y.head? == some 45 || Y.head? == some 43) = true then 1 else 0) Y)).isEmpty
      = true
  · simp only [hds, if_true]
  · simp only [hds, Bool.false_eq_true, if_false]
    have hne : (List.takeWhile isdigit
        (List.drop (if (Y.head? == some 45 || Y.head? == some 43) = true then 1 else 0)
          Y)).length ≠ 0 := by
      intro h0
      exact hds (by simpa using List.length_eq_zero.1 h0)
    have hne2 : ¬ (0 + (if (Y.head? == some 45 || Y.head? == some 43) = true then 1 else 0) +
        (List.takeWhile isdigit
          (List.drop (if (Y.head? == some 45 || Y.head? == some 43) = true then 1 else 0)
            Y)).length = 0) := by omega
    rw [if_neg hne2]
    congr 1
    omega

/-- Leading white space does not change what the octave parse returns. -/
theorem parse_octave_skip_space (W Y : List Byte) (hW : ∀ c ∈ W, isspace c = true)
    (hY : ∀ c, Y.head? = some c → isspace c = false) :
    parse_octave (W ++ Y) = parse_octave Y := by
  have hnz : ∀ x ∈ W, x ≠ 0 := fun x hx => space_facts x (hW x hx)
  have hlen : strlen (W ++ Y) = W.length + strlen Y := strlen_append W Y hnz
  have hst := strtol_skip_space W Y hW hY
  have key : strtonum strtol (W ++ Y) = strtonum strtol Y := by
    rw [strtonum_strtol_eq, strtonum_strtol_eq, hst, hlen]
    simp only
    by_cases h0 : (strtol Y).2 = 0
    · have c1 : ¬ (W.length + strlen Y ≠ 0 ∧
          (if (strtol Y).2 = 0 then 0 else W.length + (strtol Y).2) = W.length + strlen Y) := by
        rw [if_pos h0]
        omega
      have c2 : ¬ (strlen Y ≠ 0 ∧ (strtol Y).2 = strlen Y) := by omega
      rw [if_neg c1, if_neg c2]
    · by_cases h1 : (strtol Y).2 = strlen Y
      · have c1 : (W.length + strlen Y ≠ 0 ∧
            (if (strtol Y).2 = 0 then 0 else W.length + (strtol Y).2) = W.length + strlen Y) := by
          rw [if_neg h0]
          omega
        have c2 : (strlen Y ≠ 0 ∧ (strtol Y).2 = strlen Y) := by omega
        rw [if_pos c1, if_pos c2]
      · have c1 : ¬ (W.length + strlen Y ≠ 0 ∧
            (if (strtol Y).2 = 0 then 0 else W.length + (strtol Y).2) = W.length + strlen Y) := by
          rw [if_neg h0]
          omega
        have c2 : ¬ (strlen Y ≠ 0 ∧ (strtol Y).2 = strlen Y) := fun h => h1 h.2
        rw [if_neg c1, if_neg c2]
  unfold parse_octave
  rw [key]

/-- In a run of white space followed by bytes that are no white space, no
white space comes behind a byte that is none. -/
theorem no_space_after_other (W N M R : List Byte) (x w : Byte)
    (hW : ∀ c ∈ W, isspace c = true) (hN : ∀ c ∈ N, isspace c = false)
    (hx : x ∈ M) (hxs : isspace x = false) (hw : isspace w = true)
    (e : W ++ N = M ++ w :: R) : False := by
  obtain ⟨M1, M2, rfl⟩ := List.append_of_mem hx
  have e2 : W ++ N = M1 ++ (x :: (M2 ++ w :: R)) := by
    rw [e]; simp
  have hwN : w ∈ N → False := fun h => by
    have := hN w h
    rw [hw] at this
    cases this
  rcases List.append_eq_append_iff.1 e2 with ⟨a, _, h2⟩ | ⟨c, h1, h2⟩
  · exact hwN (by rw [h2]; simp)
  · cases c with
    | nil =>
      simp only [List.nil_append] at h2
      exact hwN (by rw [← h2]; simp)
    | cons y c2 =>
      simp only [List.cons_append, List.cons.injEq] at h2
      have hyW : y ∈ W := by rw [h1]; simp
      have := hW y hyW
      rw [← h2.1, hxs] at this
      cases this

/-- White space behind a byte of the octave field that is no white space makes
the octave parse fail, when no NUL byte comes before it. -/
theorem parse_octave_inner_space (M B : List Byte) (w : Byte)
    (hM : ∀ x ∈ M, x ≠ 0) (hx : ∃ x ∈ M, isspace x = false) (hw : isspace w = true) :
    parse_octave (M ++ w :: B) = .error Exn.TunerError := by
  cases hs : strtonum strtol (M ++ w :: B) with
  | error e =>
    have := strtonum_error strtol _ e hs
    subst this
    unfold parse_octave
    rw [hs]
  | ok o =>
    exfalso
    have hspec := strtonum_strtol_eq (M ++ w :: B)
    rw [hs] at hspec
    by_cases hcond : strlen (M ++ w :: B) ≠ 0 ∧ (strtol (M ++ w :: B)).2 = strlen (M ++ w :: B)
    · obtain ⟨h1, h2⟩ := hcond
      obtain ⟨W, S, D, T, e, hW, hS, hD, hDd, hT⟩ := strtol_decompose (M ++ w :: B) (by omega)
      have hsh := strtol_shape W S D T hW hS hD hDd hT
      rw [← e] at hsh
      have h3 : (strtol (M ++ w :: B)).2 = W.length + S.length + D.length := by rw [hsh]
      have hMw : ∀ x ∈ M ++ [w], x ≠ 0 := by
        intro x hxm
        rcases List.mem_append.1 hxm with h | h
        · exact hM x h
        · simp only [List.mem_singleton] at h
          rw [h]
          exact space_facts w hw
      have hl : strlen ((M ++ [w]) ++ B) = (M ++ [w]).length + strlen B :=
        strlen_append (M ++ [w]) B hMw
      have hl2 : strlen (M ++ w :: B) = M.length + 1 + strlen B := by
        simpa using hl
      have hN : ∀ c ∈ S ++ D, isspace c = false := by
        intro c hc
        rcases List.mem_append.1 hc with h | h
        · rcases hS with rfl | rfl | rfl
          · simp at h
          · simp at h; rw [h]; decide
          · simp at h; rw [h]; decide
        · exact (digit_facts c (hDd c h)).1
      have e3 : (W ++ (S ++ D)) ++ T = (M ++ [w]) ++ B := by
        have := e.symm
        simpa using this
      obtain ⟨x, hxM, hxs⟩ := hx
      rcases List.append_eq_append_iff.1 e3 with ⟨a, h4, _⟩ | ⟨c, h4, _⟩
      · have h6 : M.length + 1 = W.length + (S.length + D.length) + a.length := by
          have := congrArg List.length h4
          simp at this
          omega
        have ha : a = [] := List.length_eq_zero.1 (by omega)
        subst ha
        exact no_space_after_other W (S ++ D) M [] x w hW hN hxM hxs hw (by
          have := h4.symm
          simpa using this)
      · exact no_space_after_other W (S ++ D) M c x w hW hN hxM hxs hw (by
          rw [h4]; simp)
    · rw [if_neg hcond] at hspec
      cases hspec

theorem after_letter_field (base : Int) (S : Bool) (X : List Byte)
    (hX : S = true ∨ (X.headD 0).val ≠ 35) :
    after_letter base ((if S then [35] else []) ++ X) =
      match parse_octave X with
      | .error e => .error e
      | .ok octave_id => octave_step (base + (if S then 1 else 0)) octave_id := by
  cases S with
  | true =>
    simp only [if_true, List.singleton_append]
    rw [after_letter_sharp]
  | false =>
    have h : (X.headD 0).val ≠ 35 := by
      rcases hX with h | h
      · cases h
      · exact h
    simp only [Bool.false_eq_true, if_false, List.nil_append, add_zero]
    rw [after_letter_plain _ _ h]

theorem reject_of_parse_error (sc : Bool) (L : Byte) (S : Bool) (X : List Byte)
    (hX : S = true ∨ (X.headD 0).val ≠ 35)
    (hp : parse_octave X = .error Exn.TunerError) :
    note_name_to_midi_id sc (L :: ((if S then [35] else []) ++ X)) =
      .error Exn.TunerError := by
  rw [midi_id_of_int]
  by_cases hL : is_note_letter L = true
  · rw [midi_int_letter sc L _ hL]
    by_cases ht : ((if S then [35] else []) ++ X) = []
    · rw [if_pos ht]
    · rw [if_neg ht, after_letter_field _ S X hX, hp]
  · rw [midi_int_not_letter sc L _ (by simpa using hL)]

theorem same_outcome_of_parse (sc : Bool) (L : Byte) (S : Bool) (X X2 : List Byte)
    (hX : S = true ∨ (X.headD 0).val ≠ 35) (hX2 : S = true ∨ (X2.headD 0).val ≠ 35)
    (hne : X ≠ []) (hne2 : X2 ≠ []) (hp : parse_octave X = parse_octave X2) :
    note_name_to_midi_id sc (L :: ((if S then [35] else []) ++ X)) =
      note_name_to_midi_id sc (L :: ((if S then [35] else []) ++ X2)) := by
  rw [midi_id_of_int, midi_id_of_int]
  by_cases hL : is_note_letter L = true
  · have h1 : ((if S then [35] else []) ++ X) ≠ [] := by simp [hne]
    have h2 : ((if S then [35] else []) ++ X2) ≠ [] := by simp [hne2]
    rw [midi_int_letter sc L _ hL, midi_int_letter sc L _ hL, if_neg h1, if_neg h2,
      after_letter_field _ S X hX, after_letter_field _ S X2 hX2, hp]
  · rw [midi_int_not_letter sc L _ (by simpa using hL),
      midi_int_not_letter sc L _ (by simpa using hL)]

theorem head_of_space_run (W : List Byte) (c : Byte) (rest : List Byte)
    (hW : ∀ x ∈ W, isspace x = true) (hc : W ≠ [] ∨ c.val ≠ 35) :
    ((W ++ c :: rest).headD 0).val ≠ 35 := by
  cases W with
  | nil =>
    rcases hc with h | h
    · exact absurd rfl h
    · exact h
  | cons w0 W2 => exact (space_not_other w0 (hW w0 (by simp))).2.2.2.2

/-- In an accepted name, a white-space byte of the octave field with no NUL
before it has only white space before it in the field, and white space and
then a digit or a sign behind it. -/
theorem space_in_field (sc : Bool) (L : Byte) (S : Bool) (A2 B : List Byte) (w : Byte)
    (r : Nat) (hX : S = true ∨ ((A2 ++ w :: B).headD 0).val ≠ 35)
    (hw : isspace w = true) (hA : ∀ x ∈ A2, x ≠ 0)
    (hr : note_name_to_midi_id sc (L :: ((if S then [35] else []) ++ (A2 ++ w :: B))) =
      .ok r) :
    ∃ (W2 : List Byte) (y : Byte) (Y : List Byte), B = W2 ++ y :: Y ∧
      (∀ x ∈ A2, isspace x = true) ∧ (∀ x ∈ W2, isspace x = true) ∧
      (isdigit y = true ∨ y = 43 ∨ y = 45) := by
  have contra : parse_octave (A2 ++ w :: B) = .error Exn.TunerError → False := by
    intro hp
    rw [reject_of_parse_error sc L S _ hX hp] at hr
    cases hr
  by_cases hall : ∀ x ∈ A2, isspace x = true
  · have hB : B = B.takeWhile isspace ++ B.dropWhile isspace :=
      (List.takeWhile_append_dropWhile isspace B).symm
    have hW2 : ∀ x ∈ B.takeWhile isspace, isspace x = true :=
      fun x hx => mem_takeWhile _ _ x hx
    have hRh : ∀ c, (B.dropWhile isspace).head? = some c → isspace c = false :=
      fun c hc => head_dropWhile _ _ c hc
    generalize B.takeWhile isspace = W2 at hB hW2
    generalize B.dropWhile isspace = R at hB hRh
    have hWall : ∀ x ∈ A2 ++ w :: W2, isspace x = true := by
      intro x hx
      rcases List.mem_append.1 hx with h | h
      · exact hall x h
      · rcases List.mem_cons.1 h with h | h
        · rw [h]; exact hw
        · exact hW2 x h
    have hXeq : A2 ++ w :: B = (A2 ++ w :: W2) ++ R := by
      rw [hB]; simp
    have hskip : parse_octave (A2 ++ w :: B) = parse_octave R := by
      rw [hXeq]
      exact parse_octave_skip_space _ R hWall hRh
    cases R with
    | nil =>
      exfalso
      apply contra
      rw [hskip]
      decide
    | cons y Y =>
      have hys : isspace y = false := hRh y rfl
      by_cases hy : isdigit y = true ∨ y = 43 ∨ y = 45
      · exact ⟨W2, y, Y, hB, hall, hW2, hy⟩
      · exfalso
        apply contra
        rw [hskip]
        have h1 : isdigit y = false := by
          cases h : isdigit y with
          | true => exact absurd (Or.inl h) hy
          | false => rfl
        exact parse_octave_bad_head y Y hys h1 (fun e => hy (Or.inr (Or.inl e)))
          (fun e => hy (Or.inr (Or.inr e)))
  · exfalso
    apply contra
    have hx : ∃ x ∈ A2, isspace x = false := by
      by_contra hne
      apply hall
      intro x hx
      cases h : isspace x with
      | true => rfl
      | false => exact absurd ⟨x, hx, h⟩ hne
    exact parse_octave_inner_space A2 B w hA hx hw

/-- An accepted name that holds a white-space byte with no NUL before it is the
letter, the optional `#`, white space, and then a digit or a sign. -/
theorem space_in_accepted_name (sc : Bool) (A B : List Byte) (w : Byte) (r : Nat)
    (hw : isspace w = true) (hA : ∀ x ∈ A, x ≠ 0)
    (hr : note_name_to_midi_id sc (A ++ w :: B) = .ok r) :
    ∃ (L : Byte) (S : Bool) (W1 W2 : List Byte) (y : Byte) (Y : List Byte),
      A = L :: ((if S then [35] else []) ++ W1) ∧ B = W2 ++ y :: Y ∧
      is_note_letter L = true ∧ (∀ x ∈ W1, isspace x = true) ∧
      (∀ x ∈ W2, isspace x = true) ∧ (isdigit y = true ∨ y = 43 ∨ y = 45) := by
  cases A with
  | nil =>
    exfalso
    rw [List.nil_append, midi_id_of_int,
      midi_int_not_letter sc w B (space_not_other w hw).1] at hr
    cases hr
  | cons L A1 =>
    have hL : is_note_letter L = true := by
      cases h : is_note_letter L with
      | true => rfl
      | false =>
        exfalso
        rw [List.cons_append, midi_id_of_int, midi_int_not_letter sc L _ h] at hr
        cases hr
    have hA1 : ∀ x ∈ A1, x ≠ 0 := fun x hx => hA x (by simp [hx])
    cases A1 with
    | nil =>
      have hX : false = true ∨ ((([] : List Byte) ++ w :: B).headD 0).val ≠ 35 :=
        Or.inr (space_not_other w hw).2.2.2.2
      obtain ⟨W2, y, Y, hB, h1, h2, h3⟩ :=
        space_in_field sc L false [] B w r hX hw (by simp) hr
      exact ⟨L, false, [], W2, y, Y, rfl, hB, hL, h1, h2, h3⟩
    | cons a A2 =>
      by_cases ha : a = 35
      · subst ha
        have hA2 : ∀ x ∈ A2, x ≠ 0 := fun x hx => hA1 x (by simp [hx])
        obtain ⟨W2, y, Y, hB, h1, h2, h3⟩ :=
          space_in_field sc L true A2 B w r (Or.inl rfl) hw hA2 hr
        exact ⟨L, true, A2, W2, y, Y, rfl, hB, hL, h1, h2, h3⟩
      · have hX : false = true ∨ (((a :: A2) ++ w :: B).headD 0).val ≠ 35 :=
          Or.inr (fun e => ha (Fin.ext e))
        obtain ⟨W2, y, Y, hB, h1, h2, h3⟩ :=
          space_in_field sc L false (a :: A2) B w r hX hw hA1 hr
        exact ⟨L, false, a :: A2, W2, y, Y, rfl, hB, hL, h1, h2, h3⟩

/-! ## The claims -/

/-- C1: for a letter `L` of `A`..`G`, a sharp flag `S` and an octave `O` in
`[-1,9]` written in decimal, `note_name_to_midi_id` succeeds exactly when
`table L + S + (O+1)*12` lies in `[0,127]`, and the result is then that value,
where the table is `{A:9, B:11, C:0, D:2, E:4, F:5, G:7}`; "A4" gives 69,
"G9" gives 127 and "G#9" is rejected. -/
theorem spelled_note_midi_id (sc : Bool) (L : Byte) (S : Bool) (O : Int)
    (hL : L ∈ str "ABCDEFG") (hlo : -1 ≤ O) (hhi : O ≤ 9) :
    ((∃ r, note_name_to_midi_id sc (spelled L S O) = .ok r) ↔
      (0 ≤ table L + (if S then 1 else 0) + (O + 1) * 12 ∧
        table L + (if S then 1 else 0) + (O + 1) * 12 ≤ 127)) ∧
    (∀ r, note_name_to_midi_id sc (spelled L S O) = .ok r →
      (r : Int) = table L + (if S then 1 else 0) + (O + 1) * 12) ∧
    (str "ABCDEFG").map table = [9, 11, 0, 2, 4, 5, 7] ∧
    note_name_to_midi_id sc (str "A4") = .ok 69 ∧
    note_name_to_midi_id sc (str "G9") = .ok 127 ∧
    note_name_to_midi_id sc (str "G#9") = .error Exn.TunerError := by
  have hLt := upper_is_note_letter L hL
  have hS : (0 : Int) ≤ (if S then 1 else 0) := by split_ifs <;> omega
  have ht := table_bounds L
  have key : note_name_to_midi_int sc (spelled L S O) =
      if 128 ≤ table L + (if S then 1 else 0) + (O + 1) * 12 then .error Exn.TunerError
      else .ok (table L + (if S then 1 else 0) + (O + 1) * 12) := by
    rw [midi_int_spelled sc L S O hLt, clamp_long_inside O hlo hhi,
      octave_step_inside _ O hlo hhi]
  refine ⟨?_, ?_, by decide, by cases sc <;> decide, by cases sc <;> decide,
    by cases sc <;> decide⟩
  · rw [midi_id_of_int, key]
    by_cases hv : 128 ≤ table L + (if S then 1 else 0) + (O + 1) * 12
    · rw [if_pos hv]
      constructor
      · rintro ⟨r, hr⟩
        cases hr
      · intro h
        omega
    · rw [if_neg hv]
      constructor
      · intro _
        constructor <;> omega
      · intro _
        exact ⟨_, rfl⟩
  · intro r hr
    rw [midi_id_of_int, key] at hr
    by_cases hv : 128 ≤ table L + (if S then 1 else 0) + (O + 1) * 12
    · rw [if_pos hv] at hr
      cases hr
    · rw [if_neg hv] at hr
      cases hr
      exact to_uint8_small _ (by omega) (by omega)

/-- C1, at the input "C#4". -/
theorem spelled_note_midi_id_witness :
    ch 'C' ∈ str "ABCDEFG" ∧ (-1 : Int) ≤ 4 ∧ (4 : Int) ≤ 9 ∧
    spelled (ch 'C') true 4 = str "C#4" ∧
    ((∃ r, note_name_to_midi_id true (spelled (ch 'C') true 4) = .ok r) ↔
      (0 ≤ table (ch 'C') + (if true then 1 else 0) + ((4 : Int) + 1) * 12 ∧
        table (ch 'C') + (if true then 1 else 0) + ((4 : Int) + 1) * 12 ≤ 127)) ∧
    ∀ r, note_name_to_midi_id true (spelled (ch 'C') true 4) = .ok r →
      (r : Int) = table (ch 'C') + (if true then 1 else 0) + (4 + 1) * 12 :=
  ⟨by decide, by decide, by decide, by decide,
    (spelled_note_midi_id true (ch 'C') true 4 (by decide) (by decide) (by decide)).1,
    (spelled_note_midi_id true (ch 'C') true 4 (by decide) (by decide) (by decide)).2.1⟩

/-- C2: a value returned by `note_name_to_midi_id` lies in `[0,127]`, and the
`int` that reaches the final narrowing to 8 bits is itself in `[0,127]`, so the
narrowing returns it unchanged. -/
theorem midi_id_in_range (sc : Bool) (s : List Byte) (r : Nat)
    (h : note_name_to_midi_id sc s = .ok r) :
    r ≤ 127 ∧ ∃ m : Int, note_name_to_midi_int sc s = .ok m ∧ 0 ≤ m ∧ m < 128 ∧
      (r : Int) = m := by
  rw [midi_id_of_int] at h
  rcases midi_int_result sc s with he | ⟨m, hm, h0, h1⟩
  · rw [he] at h
    cases h
  · rw [hm] at h
    cases h
    have e := to_uint8_small m h0 (by omega)
    exact ⟨by omega, m, hm, h0, h1, e⟩

/-- C2, at the input "G9". -/
theorem midi_id_in_range_witness :
    note_name_to_midi_id true (str "G9") = .ok 127 ∧
    (127 ≤ 127 ∧ ∃ m : Int, note_name_to_midi_int true (str "G9") = .ok m ∧ 0 ≤ m ∧
      m < 128 ∧ ((127 : Nat) : Int) = m) :=
  ⟨by decide, midi_id_in_range true (str "G9") 127 (by decide)⟩

/-- C3: every MIDI id in `[0,127]` is the parse of some note name. -/
theorem midi_id_surjective (sc : Bool) (m : Nat) (hm : m ≤ 127) :
    ∃ s, note_name_to_midi_id sc s = .ok m :=
  ⟨canonical_name m, canonical_name_midi_id sc ⟨m, by omega⟩⟩

/-- C3, at the id 61. -/
theorem midi_id_surjective_witness :
    61 ≤ 127 ∧ ∃ s, note_name_to_midi_id false s = .ok 61 :=
  ⟨by decide, midi_id_surjective false 61 (by decide)⟩

/-- C4: `note_name_to_midi_id` and `note_name_to_freq` either return a value or
throw `TunerError`; `StrToNumError` never leaves them, because every failure of
the octave parse is rethrown as `TunerError`. -/
theorem only_tuner_error (sc : Bool) (s : List Byte) :
    ((∃ r, note_name_to_midi_id sc s = .ok r) ∨
      note_name_to_midi_id sc s = .error Exn.TunerError) ∧
    ((∃ f, note_name_to_freq sc s = .ok f) ∨
      note_name_to_freq sc s = .error Exn.TunerError) ∧
    note_name_to_midi_id sc s ≠ .error Exn.StrToNumError ∧
    note_name_to_freq sc s ≠ .error Exn.StrToNumError ∧
    (∀ p e, strtonum strtol p = .error e → parse_octave p = .error Exn.TunerError) := by
  have h1 : (∃ r, note_name_to_midi_id sc s = .ok r) ∨
      note_name_to_midi_id sc s = .error Exn.TunerError := by
    rw [midi_id_of_int]
    rcases midi_int_result sc s with he | ⟨m, hm, _, _⟩
    · right; rw [he]
    · left; rw [hm]; exact ⟨_, rfl⟩
  have h2 : (∃ f, note_name_to_freq sc s = .ok f) ∨
      note_name_to_freq sc s = .error Exn.TunerError := by
    unfold note_name_to_freq
    rcases h1 with ⟨r, hr⟩ | he
    · left; rw [hr]; exact ⟨_, rfl⟩
    · right; rw [he]
  refine ⟨h1, h2, ?_, ?_, ?_⟩
  · rcases h1 with ⟨r, hr⟩ | he
    · rw [hr]; intro h; cases h
    · rw [he]; intro h; cases h
  · rcases h2 with ⟨r, hr⟩ | he
    · rw [hr]; intro h; cases h
    · rw [he]; intro h; cases h
  · intro p e he
    have := strtonum_error strtol p e he
    subst this
    unfold parse_octave
    rw [he]

/-- C5: `strtonum` over `strtol` in base 10 succeeds exactly when the string
is not empty and the end cursor of `strtol` is the end of the string, and it
then returns the value of `strtol`; in every other case it throws
`StrToNumError`.  "12x" and "" fail, "12" gives 12. -/
theorem strtonum_strtol_spec (s : List Byte) :
    strtonum strtol s =
      (if strlen s ≠ 0 ∧ (strtol s).2 = strlen s then .ok (strtol s).1
        else .error Exn.StrToNumError) ∧
    strtonum strtol (str "12x") = .error Exn.StrToNumError ∧
    strtonum strtol (str "") = .error Exn.StrToNumError ∧
    strtonum strtol (str "12") = .ok 12 := by
  exact ⟨strtonum_strtol_eq s, by decide, by decide, by decide⟩

/-- C6 (the code at the failing input): "C4" is accepted with id 60, and so is
"C4" followed by a NUL byte and an `x`, although the added suffix is not
empty and does not start with a digit. -/
theorem embedded_nul_accepted (sc : Bool) :
    note_name_to_midi_id sc (str "C4") = .ok 60 ∧
    isdigit 0 = false ∧
    note_name_to_midi_id sc (str "C4" ++ [0, ch 'x']) = .ok 60 := by
  cases sc <;> decide

/-- C7 (as stated, false): the second character of "C 4" is a space, which is
neither `#`, a digit nor a sign, and yet the name is accepted with id 60. -/
theorem space_before_octave_accepted :
    (str "C 4").get? 1 = some (ch ' ') ∧ ch ' ' ≠ ch '#' ∧ isdigit (ch ' ') = false ∧
    ch ' ' ≠ ch '+' ∧ ch ' ' ≠ ch '-' ∧
    note_name_to_midi_id true (str "C 4") = .ok 60 := by
  decide

/-- C7 (amended): only `#` is a marker after the letter, and white space is
tolerated only directly in front of the octave number.
(1) An input whose second character is neither `#`, a decimal digit, a sign,
nor one of the six white-space characters is rejected.
(2) An input that starts with white space is rejected.
(3) White space behind a byte of the octave field that is no white space is
rejected, when no NUL byte stands before it in the field.
(4) A run of white space behind the letter and the optional `#` is rejected
when a byte follows it that is neither a digit nor a sign, and (5) when nothing
follows it.
(6) A run of white space behind the letter and the optional `#` that is
followed by a digit or a sign is skipped: the name has the outcome of the name
without the run.
(7) Every accepted input that holds a white-space byte with no NUL byte before
it is the letter, the optional `#`, white space only up to that byte, then
white space and a digit or a sign: every other input with such a byte is
rejected.
So "C 4" gives 60 and "C# 4" gives 61, and " C4", "C4 ", "C x4", "C+ 4",
"C #4", "C " and "C1 0" are rejected. -/
theorem white_space_only_before_octave (sc : Bool) :
    (∀ (s : List Byte) (c : Byte), s.get? 1 = some c → c ≠ ch '#' → isdigit c = false →
      c ≠ ch '+' → c ≠ ch '-' → isspace c = false →
      note_name_to_midi_id sc s = .error Exn.TunerError) ∧
    (∀ (w : Byte) (t : List Byte), isspace w = true →
      note_name_to_midi_id sc (w :: t) = .error Exn.TunerError) ∧
    (∀ (L : Byte) (S : Bool) (M B : List Byte) (w : Byte),
      (S = true ∨ M.head? ≠ some (ch '#')) → (∀ x ∈ M, x ≠ 0) →
      (∃ x ∈ M, isspace x = false) → isspace w = true →
      note_name_to_midi_id sc (L :: ((if S then [ch '#'] else []) ++ (M ++ w :: B))) =
        .error Exn.TunerError) ∧
    (∀ (L : Byte) (S : Bool) (W : List Byte) (c : Byte) (rest : List Byte),
      (∀ x ∈ W, isspace x = true) → (S = true ∨ W ≠ [] ∨ c ≠ ch '#') →
      isspace c = false → isdigit c = false → c ≠ ch '+' → c ≠ ch '-' →
      note_name_to_midi_id sc (L :: ((if S then [ch '#'] else []) ++ (W ++ c :: rest))) =
        .error Exn.TunerError) ∧
    (∀ (L : Byte) (S : Bool) (W : List Byte), (∀ x ∈ W, isspace x = true) →
      note_name_to_midi_id sc (L :: ((if S then [ch '#'] else []) ++ W)) =
        .error Exn.TunerError) ∧
    (∀ (L : Byte) (S : Bool) (W : List Byte) (y : Byte) (Y : List Byte),
      (∀ x ∈ W, isspace x = true) → (isdigit y = true ∨ y = ch '+' ∨ y = ch '-') →
      note_name_to_midi_id sc (L :: ((if S then [ch '#'] else []) ++ (W ++ y :: Y))) =
        note_name_to_midi_id sc (L :: ((if S then [ch '#'] else []) ++ y :: Y))) ∧
    (∀ (A B : List Byte) (w : Byte) (r : Nat), isspace w = true → (∀ x ∈ A, x ≠ 0) →
      note_name_to_midi_id sc (A ++ w :: B) = .ok r →
      ∃ (L : Byte) (S : Bool) (W1 W2 : List Byte) (y : Byte) (Y : List Byte),
        A = L :: ((if S then [ch '#'] else []) ++ W1) ∧ B = W2 ++ y :: Y ∧
        is_note_letter L = true ∧ (∀ x ∈ W1, isspace x = true) ∧
        (∀ x ∈ W2, isspace x = true) ∧
        (isdigit y = true ∨ y = ch '+' ∨ y = ch '-')) ∧
    note_name_to_midi_id sc (str "C 4") = .ok 60 ∧
    note_name_to_midi_id sc (str "C# 4") = .ok 61 ∧
    note_name_to_midi_id sc (str "C  -1") = .ok 0 ∧
    note_name_to_midi_id sc (str "C" ++ [9, 10] ++ str "4") = .ok 60 ∧
    note_name_to_midi_id sc (str " C4") = .error Exn.TunerError ∧
    note_name_to_midi_id sc (str "C4 ") = .error Exn.TunerError ∧
    note_name_to_midi_id sc (str "C x4") = .error Exn.TunerError ∧
    note_name_to_midi_id sc (str "C+ 4") = .error Exn.TunerError ∧
    note_name_to_midi_id sc (str "C #4") = .error Exn.TunerError ∧
    note_name_to_midi_id sc (str "C ") = .error Exn.TunerError ∧
    note_name_to_midi_id sc (str "C1 0") = .error Exn.TunerError := by
  refine ⟨?_, ?_, ?_, ?_, ?_, ?_, space_in_accepted_name sc,
    by cases sc <;> decide, by cases sc <;> decide,
    by cases sc <;> decide, by cases sc <;> decide, by cases sc <;> decide,
    by cases sc <;> decide, by cases sc <;> decide, by cases sc <;> decide,
    by cases sc <;> decide, by cases sc <;> decide, by cases sc <;> decide⟩
  · intro s c h1 hsharp hd hp hm hw
    have hp2 : c ≠ 43 := hp
    have hm2 : c ≠ 45 := hm
    have hs2 : c.val ≠ 35 := fun e => hsharp (Fin.ext e)
    rw [midi_id_of_int]
    cases s with
    | nil => simp at h1
    | cons c0 t =>
      cases t with
      | nil => simp at h1
      | cons c1 r =>
        have e : c1 = c := by simpa using h1
        subst e
        by_cases hL : is_note_letter c0 = true
        · rw [midi_int_letter sc c0 _ hL, if_neg (List.cons_ne_nil _ _),
            after_letter_plain _ _ (by simpa using hs2),
            parse_octave_bad_head c1 r hw hd hp2 hm2]
        · rw [midi_int_not_letter sc c0 _ (by simpa using hL)]
  · intro w t hw
    rw [midi_id_of_int, midi_int_not_letter sc w t (space_not_other w hw).1]
  · intro L S M B w hS hM hx hw
    have hX : S = true ∨ (((M ++ w :: B).headD 0).val ≠ 35) := by
      rcases hS with h | h
      · exact Or.inl h
      · right
        cases M with
        | nil =>
          obtain ⟨x, hxM, _⟩ := hx
          simp at hxM
        | cons m0 M2 =>
          intro e
          apply h
          have : m0 = 35 := Fin.ext e
          rw [this]
          rfl
    exact reject_of_parse_error sc L S _ hX (parse_octave_inner_space M B w hM hx hw)
  · intro L S W c rest hW hS hcs hcd hcp hcm
    have hX : S = true ∨ (((W ++ c :: rest).headD 0).val ≠ 35) := by
      rcases hS with h | h | h
      · exact Or.inl h
      · exact Or.inr (head_of_space_run W c rest hW (Or.inl h))
      · exact Or.inr (head_of_space_run W c rest hW (Or.inr (fun e => h (Fin.ext e))))
    have hp : parse_octave (W ++ c :: rest) = .error Exn.TunerError := by
      rw [parse_octave_skip_space W (c :: rest) hW (by
        intro x hx
        simp only [List.head?_cons, Option.some.injEq] at hx
        rw [← hx]; exact hcs)]
      exact parse_octave_bad_head c rest hcs hcd hcp hcm
    exact reject_of_parse_error sc L S _ hX hp
  · intro L S W hW
    have hX : S = true ∨ ((W.headD 0).val ≠ 35) := by
      right
      cases W with
      | nil => decide
      | cons w0 W2 => exact (space_not_other w0 (hW w0 (by simp))).2.2.2.2
    have hp : parse_octave W = .error Exn.TunerError := by
      have h := parse_octave_skip_space W [] hW (by simp)
      rw [List.append_nil] at h
      rw [h]
      decide
    exact reject_of_parse_error sc L S W hX hp
  · intro L S W y Y hW hy
    have hys : isspace y = false ∧ y.val ≠ 35 := by
      rcases hy with h | h | h
      · exact ⟨(digit_facts y h).1, (digit_facts y h).2.2.2.2⟩
      · rw [h]; decide
      · rw [h]; decide
    have hX : S = true ∨ (((W ++ y :: Y).headD 0).val ≠ 35) :=
      Or.inr (head_of_space_run W y Y hW (Or.inr hys.2))
    have hX2 : S = true ∨ (((y :: Y).headD 0).val ≠ 35) := Or.inr hys.2
    exact same_outcome_of_parse sc L S _ _ hX hX2 (by simp) (List.cons_ne_nil _ _)
      (parse_octave_skip_space W (y :: Y) hW (by
        intro x hx
        simp only [List.head?_cons, Option.some.injEq] at hx
        rw [← hx]; exact hys.1))

/-- C7 (amended), at the inputs "C.4", "C4 ", "C x4", "C   7" and "C# 4". -/
theorem white_space_only_before_octave_witness :
    (str "C#" ++ ch ' ' :: str "4" = str "C# 4" ∧
      note_name_to_midi_id false (str "C#" ++ ch ' ' :: str "4") = .ok 61 ∧
      ∃ (L : Byte) (S : Bool) (W1 W2 : List Byte) (y : Byte) (Y : List Byte),
        str "C#" = L :: ((if S then [ch '#'] else []) ++ W1) ∧ str "4" = W2 ++ y :: Y ∧
        is_note_letter L = true ∧ (∀ x ∈ W1, isspace x = true) ∧
        (∀ x ∈ W2, isspace x = true) ∧
        (isdigit y = true ∨ y = ch '+' ∨ y = ch '-')) ∧
    note_name_to_midi_id false (str "C.4") = .error Exn.TunerError ∧
    (ch 'C' :: ((if false then [ch '#'] else []) ++ (str "4" ++ ch ' ' :: [])) = str "C4 " ∧
      note_name_to_midi_id false
        (ch 'C' :: ((if false then [ch '#'] else []) ++ (str "4" ++ ch ' ' :: []))) =
        .error Exn.TunerError) ∧
    (ch 'C' :: ((if false then [ch '#'] else []) ++ (str " " ++ ch 'x' :: str "4")) =
        str "C x4" ∧
      note_name_to_midi_id false
        (ch 'C' :: ((if false then [ch '#'] else []) ++ (str " " ++ ch 'x' :: str "4"))) =
        .error Exn.TunerError) ∧
    (ch 'C' :: ((if false then [ch '#'] else []) ++ (str "   " ++ ch '7' :: [])) =
        str "C   7" ∧
      note_name_to_midi_id false
        (ch 'C' :: ((if false then [ch '#'] else []) ++ (str "   " ++ ch '7' :: []))) =
      note_name_to_midi_id false (ch 'C' :: ((if false then [ch '#'] else []) ++ ch '7' :: []))) :=
  ⟨⟨by decide, by decide,
      (white_space_only_before_octave false).2.2.2.2.2.2.1 (str "C#") (str "4") (ch ' ') 61
        (by decide) (by set_option maxRecDepth 100000 in decide) (by decide)⟩,
    (white_space_only_before_octave false).1 (str "C.4") (ch '.') (by set_option maxRecDepth 100000 in decide) (by set_option maxRecDepth 100000 in decide)
      (by set_option maxRecDepth 100000 in decide) (by set_option maxRecDepth 100000 in decide) (by set_option maxRecDepth 100000 in decide) (by set_option maxRecDepth 100000 in decide),
    ⟨by decide, (white_space_only_before_octave false).2.2.1 (ch 'C') false (str "4") []
      (ch ' ') (by set_option maxRecDepth 100000 in decide) (by set_option maxRecDepth 100000 in decide) (by set_option maxRecDepth 100000 in decide) (by set_option maxRecDepth 100000 in decide)⟩,
    ⟨by decide, (white_space_only_before_octave false).2.2.2.1 (ch 'C') false (str " ")
      (ch 'x') (str "4") (by set_option maxRecDepth 100000 in decide) (by set_option maxRecDepth 100000 in decide) (by set_option maxRecDepth 100000 in decide) (by set_option maxRecDepth 100000 in decide) (by set_option maxRecDepth 100000 in decide)
      (by set_option maxRecDepth 100000 in decide)⟩,
    ⟨by decide, (white_space_only_before_octave false).2.2.2.2.2.1 (ch 'C') false (str "   ")
      (ch '7') [] (by set_option maxRecDepth 100000 in decide) (by set_option maxRecDepth 100000 in decide)⟩⟩

/-- C8: the letter is read case-insensitively: for a lower-case letter `l` of
`a`..`g` and any rest `t`, the names `l t` and `L t` (with `L` the upper-case
form) have the same outcome; "a4" and "A4" both give 69. -/
theorem letter_case_insensitive (sc : Bool) (l : Byte) (t : List Byte)
    (hl : l ∈ str "abcdefg") :
    note_name_to_midi_id sc (l :: t) = note_name_to_midi_id sc (upper_of l :: t) ∧
    (str "abcdefg").map upper_of = str "ABCDEFG" ∧
    note_name_to_midi_id sc (str "a4") = .ok 69 ∧
    note_name_to_midi_id sc (str "A4") = .ok 69 := by
  obtain ⟨h1, h2, h3⟩ := lower_letter_facts l hl
  refine ⟨?_, by decide, by cases sc <;> decide, by cases sc <;> decide⟩
  rw [midi_id_of_int, midi_id_of_int, midi_int_letter sc l t h1,
    midi_int_letter sc (upper_of l) t h2, h3]

/-- C8, at the input "c#3". -/
theorem letter_case_insensitive_witness :
    ch 'c' ∈ str "abcdefg" ∧
    note_name_to_midi_id true (ch 'c' :: str "#3") =
      note_name_to_midi_id true (upper_of (ch 'c') :: str "#3") :=
  ⟨by decide, (letter_case_insensitive true (ch 'c') (str "#3") (by decide)).1⟩

/-- C9: an input whose first character is not one of `A`..`G`, `a`..`g` is
rejected with `TunerError`, "H4" among them; the masked test
`'A' <= (c & 0xdf) <= 'G'` holds exactly for those 14 letters, so it fails for
the other 242 byte values. -/
theorem first_char_not_letter_rejected (sc : Bool) (c : Byte) (t : List Byte)
    (hc : is_note_letter c = false) :
    note_name_to_midi_id sc (c :: t) = .error Exn.TunerError ∧
    note_name_to_midi_id sc (str "H4") = .error Exn.TunerError ∧
    (∀ b : Byte, (65 ≤ bare_name_of sc b ∧ bare_name_of sc b ≤ 71) ↔
      b ∈ str "ABCDEFGabcdefg") ∧
    (∀ b : Byte, is_note_letter b = true ↔ b ∈ str "ABCDEFGabcdefg") ∧
    ((List.finRange 256).filter (fun b => !is_note_letter b)).length = 242 := by
  refine ⟨?_, by cases sc <;> decide, masked_test_letters sc, is_note_letter_iff,
    other_bytes_count⟩
  rw [midi_id_of_int, midi_int_not_letter sc c t hc]

/-- C9, at the input with first byte `0xC1` (high bit set; `0xC1 & 0xdf` is
`0xC1` again). -/
theorem first_char_not_letter_rejected_witness :
    is_note_letter 193 = false ∧
    note_name_to_midi_id true (193 :: str "4") = .error Exn.TunerError :=
  ⟨by decide, (first_char_not_letter_rejected true 193 (str "4") (by decide)).1⟩

/-- C10: for a letter `L` of `A`..`G`, with or without `#`, and any integer `O`
outside `[-1,9]` written in decimal, however large, the name is rejected with
`TunerError`; "C-2" and "C10" are rejected. -/
theorem octave_out_of_range_rejected (sc : Bool) (L : Byte) (S : Bool) (O : Int)
    (hL : L ∈ str "ABCDEFG") (hO : O < -1 ∨ 9 < O) :
    note_name_to_midi_id sc (spelled L S O) = .error Exn.TunerError ∧
    note_name_to_midi_id sc (str "C-2") = .error Exn.TunerError ∧
    note_name_to_midi_id sc (str "C10") = .error Exn.TunerError := by
  refine ⟨?_, by cases sc <;> decide, by cases sc <;> decide⟩
  rw [midi_id_of_int, midi_int_spelled sc L S O (upper_is_note_letter L hL),
    octave_step_outside _ _ (clamp_long_outside O hO)]

/-- C10, at the input "C#99999999999999999999", whose octave exceeds
`LONG_MAX`. -/
theorem octave_out_of_range_rejected_witness :
    ch 'C' ∈ str "ABCDEFG" ∧ LONG_MAX < 99999999999999999999 ∧
    spelled (ch 'C') true 99999999999999999999 = str "C#99999999999999999999" ∧
    note_name_to_midi_id false (spelled (ch 'C') true 99999999999999999999) =
      .error Exn.TunerError :=
  ⟨by decide, by decide, by decide,
    (octave_out_of_range_rejected false (ch 'C') true 99999999999999999999 (by decide)
      (by decide)).1⟩

/-- C11: a note name without an octave is rejected: every string of fewer
than 2 characters fails ("" and "C" among them), and so does a letter followed
by `#` alone ("C#" among them), because the string handed to `strtonum` is then
empty. -/
theorem missing_octave_rejected (sc : Bool) :
    (∀ s : List Byte, s.length < 2 → note_name_to_midi_id sc s = .error Exn.TunerError) ∧
    (∀ L : Byte, is_note_letter L = true →
      ([L, ch '#'].drop 2 = [] ∧
        note_name_to_midi_id sc [L, ch '#'] = .error Exn.TunerError)) ∧
    strtonum strtol [] = .error Exn.StrToNumError ∧
    note_name_to_midi_id sc (str "") = .error Exn.TunerError ∧
    note_name_to_midi_id sc (str "C") = .error Exn.TunerError ∧
    note_name_to_midi_id sc (str "C#") = .error Exn.TunerError := by
  refine ⟨?_, ?_, by decide, by cases sc <;> decide, by cases sc <;> decide,
    by cases sc <;> decide⟩
  · intro s hs
    rw [midi_id_of_int]
    unfold note_name_to_midi_int
    rw [if_pos hs]
  · intro L hL
    refine ⟨rfl, ?_⟩
    have hp : parse_octave [] = .error Exn.TunerError := by decide
    rw [midi_id_of_int, midi_int_letter sc L _ hL, if_neg (List.cons_ne_nil _ _)]
    show (match after_letter (table L) (35 :: []) with
      | .ok midi_id => Except.ok (to_uint8 midi_id)
      | .error e => Except.error e) = _
    rw [after_letter_sharp, hp]

/-- C12: `note_name_to_freq` is the composition of the two converters: it
fails exactly when `note_name_to_midi_id` fails, with the same error, and
otherwise returns `midi_id_to_freq` of the id; for "C4" that is
`midi_id_to_freq 60`. -/
theorem note_name_to_freq_composition (sc : Bool) (s : List Byte) :
    (∀ e, note_name_to_freq sc s = .error e ↔ note_name_to_midi_id sc s = .error e) ∧
    (∀ r, note_name_to_midi_id sc s = .ok r →
      note_name_to_freq sc s = .ok (midi_id_to_freq r)) ∧
    ((∃ f, note_name_to_freq sc s = .ok f) ↔ ∃ r, note_name_to_midi_id sc s = .ok r) ∧
    note_name_to_freq sc (str "C4") = .ok (midi_id_to_freq 60) := by
  have h60 : note_name_to_midi_id sc (str "C4") = .ok 60 := by cases sc <;> decide
  refine ⟨?_, ?_, ?_, ?_⟩
  · intro e
    unfold note_name_to_freq
    cases h : note_name_to_midi_id sc s with
    | ok r => simp
    | error e2 => simp
  · intro r hr
    unfold note_name_to_freq
    rw [hr]
  · unfold note_name_to_freq
    cases h : note_name_to_midi_id sc s with
    | ok r => simp
    | error e2 => simp
  · unfold note_name_to_freq
    rw [h60]

/-- C13: `midi_id_to_freq(69)` is exactly 440, for the integer and for the
fractional variant: the exponent is 0 and the power is 1. -/
theorem freq_of_69 :
    midi_id_to_freq 69 = 440 ∧ midi_id_to_freq_double 69 = 440 := by
  constructor
  · simp [midi_id_to_freq]
  · simp [midi_id_to_freq_double]

/-- C14: one octave up multiplies the frequency by `r^12`, for every id in
`[0,115]`, and with `r` the exact decimal `1.05946309435929526456` the power
`r^12` differs from 2 by less than `1e-15`; `midi_id_to_freq(81)` is within
`1e-9` of 880 and `midi_id_to_freq(57)` within `1e-9` of 220. -/
theorem octave_doubles (id : Nat) (h : id ≤ 115) :
    id + 12 ≤ 127 ∧
    midi_id_to_freq (id + 12) = midi_id_to_freq id * M_2_POW_INV_12 ^ 12 ∧
    |M_2_POW_INV_12 ^ 12 - 2| < 1 / 10 ^ 15 ∧
    |midi_id_to_freq 81 - 880| < 1 / 10 ^ 9 ∧
    |midi_id_to_freq 57 - 220| < 1 / 10 ^ 9 := by
  refine ⟨by omega, freq_add_twelve id, ratio_twelfth_power, ?_, ?_⟩
  · have e : midi_id_to_freq 81 = 440 * M_2_POW_INV_12 ^ 12 := by
      have h69 : midi_id_to_freq 69 = 440 := by simp [midi_id_to_freq]
      have := freq_add_twelve 69
      rw [h69] at this
      exact this
    rw [e, abs_lt]
    constructor <;> norm_num [M_2_POW_INV_12]
  · have e : midi_id_to_freq 57 = 440 / M_2_POW_INV_12 ^ 12 := by
      have h0 : M_2_POW_INV_12 ^ 12 ≠ 0 := pow_ne_zero _ (ne_of_gt ratio_pos)
      have := freq_add_twelve 57
      have h69 : midi_id_to_freq (57 + 12) = 440 := by simp [midi_id_to_freq]
      rw [h69] at this
      rw [this]
      field_simp
    rw [e, abs_lt]
    constructor <;> norm_num [M_2_POW_INV_12]

/-- C14, at the id 69 (A4 to A5). -/
theorem octave_doubles_witness :
    69 ≤ 115 ∧ midi_id_to_freq (69 + 12) = midi_id_to_freq 69 * M_2_POW_INV_12 ^ 12 :=
  ⟨by decide, (octave_doubles 69 (by decide)).2.1⟩

/-- C15: flats and double sharps are rejected: for a letter `L` of either
case and any rest `t`, the names `L b t` and `L ## t` fail; "Bb4" and "C##4"
among them. -/
theorem flats_and_double_sharps_rejected (sc : Bool) (L : Byte) (t : List Byte)
    (hL : is_note_letter L = true) :
    note_name_to_midi_id sc (L :: ch 'b' :: t) = .error Exn.TunerError ∧
    note_name_to_midi_id sc (L :: ch '#' :: ch '#' :: t) = .error Exn.TunerError ∧
    note_name_to_midi_id sc (str "Bb4") = .error Exn.TunerError ∧
    note_name_to_midi_id sc (str "C##4") = .error Exn.TunerError := by
  refine ⟨?_, ?_, by cases sc <;> decide, by cases sc <;> decide⟩
  · have hb : parse_octave (ch 'b' :: t) = .error Exn.TunerError :=
      parse_octave_bad_head _ t (by decide) (by decide) (by decide) (by decide)
    have hh : (((ch 'b' :: t).headD 0).val ≠ 35) := by
      show (ch 'b').val ≠ 35
      decide
    rw [midi_id_of_int, midi_int_letter sc L _ hL, if_neg (List.cons_ne_nil _ _),
      after_letter_plain _ _ hh, hb]
  · have hb : parse_octave (ch '#' :: t) = .error Exn.TunerError :=
      parse_octave_bad_head _ t (by decide) (by decide) (by decide) (by decide)
    rw [midi_id_of_int, midi_int_letter sc L _ hL, if_neg (List.cons_ne_nil _ _)]
    show (match after_letter (table L) (35 :: ch '#' :: t) with
      | .ok midi_id => Except.ok (to_uint8 midi_id)
      | .error e => Except.error e) = _
    rw [after_letter_sharp, hb]

/-- C15, at the input "eb3". -/
theorem flats_and_double_sharps_rejected_witness :
    is_note_letter (ch 'e') = true ∧
    note_name_to_midi_id true (ch 'e' :: ch 'b' :: str "3") = .error Exn.TunerError :=
  ⟨by decide, (flats_and_double_sharps_rejected true (ch 'e') (str "3") (by decide)).1⟩

/-- C16: the enharmonic spellings are accepted, so two different names can
have one id: for every octave `O` in `[-1,9]`, "E#O" succeeds with the id of
"FO", and for every `O` in `[-1,8]`, "B#O" succeeds with the id of "C(O+1)". -/
theorem enharmonic_spellings (sc : Bool) (O : Int) (hlo : -1 ≤ O) (hhi : O ≤ 9) :
    note_name_to_midi_id sc (spelled (ch 'E') true O) =
      note_name_to_midi_id sc (spelled (ch 'F') false O) ∧
    (∃ r, note_name_to_midi_id sc (spelled (ch 'E') true O) = .ok r) ∧
    spelled (ch 'E') true O ≠ spelled (ch 'F') false O ∧
    (O ≤ 8 → ∃ r, note_name_to_midi_id sc (spelled (ch 'B') true O) = .ok r ∧
      note_name_to_midi_id sc (spelled (ch 'C') false (O + 1)) = .ok r) := by
  have tE : table (ch 'E') = 4 := by decide
  have tF : table (ch 'F') = 5 := by decide
  have tB : table (ch 'B') = 11 := by decide
  have tC : table (ch 'C') = 0 := by decide
  have hE := midi_id_spelled_inside sc (ch 'E') true O (by decide) hlo hhi
  have hF := midi_id_spelled_inside sc (ch 'F') false O (by decide) hlo hhi
  simp only [tE, if_true] at hE
  simp only [tF, Bool.false_eq_true, if_false, add_zero] at hF
  have e45 : (4 : Int) + 1 = 5 := by decide
  rw [e45] at hE
  have hlt : ¬ (128 ≤ (5 : Int) + (O + 1) * 12) := by omega
  refine ⟨by rw [hE, hF], ⟨_, by rw [hE, if_neg hlt]⟩, ?_, ?_⟩
  · intro h
    have h2 := congrArg (fun l => l.head?) h
    simp only [spelled, List.head?_cons, Option.some.injEq] at h2
    exact absurd h2 (by decide)
  · intro h8
    have hB := midi_id_spelled_inside sc (ch 'B') true O (by decide) hlo hhi
    have hC := midi_id_spelled_inside sc (ch 'C') false (O + 1) (by decide) (by omega)
      (by omega)
    simp only [tB, if_true] at hB
    simp only [tC, Bool.false_eq_true, if_false, add_zero, zero_add] at hC
    have eq : (11 : Int) + 1 + (O + 1) * 12 = (O + 1 + 1) * 12 := by ring
    rw [eq] at hB
    have hlt2 : ¬ (128 ≤ (O + 1 + 1) * 12) := by omega
    rw [if_neg hlt2] at hB hC
    exact ⟨_, hB, hC⟩

/-- C16, at the octave 3: "E#3" and "F3", "B#3" and "C4". -/
theorem enharmonic_spellings_witness :
    (-1 : Int) ≤ 3 ∧ (3 : Int) ≤ 9 ∧
    spelled (ch 'E') true 3 = str "E#3" ∧ spelled (ch 'F') false 3 = str "F3" ∧
    note_name_to_midi_id true (spelled (ch 'E') true 3) =
      note_name_to_midi_id true (spelled (ch 'F') false 3) ∧
    ∃ r, note_name_to_midi_id true (spelled (ch 'B') true 3) = .ok r ∧
      note_name_to_midi_id true (spelled (ch 'C') false (3 + 1)) = .ok r :=
  ⟨by decide, by decide, by decide, by decide,
    (enharmonic_spellings true 3 (by decide) (by decide)).1,
    (enharmonic_spellings true 3 (by decide) (by decide)).2.2.2 (by decide)⟩

/-- C17: other spellings of the octave are accepted and mean the same: for a
letter `L`, a sharp flag `S` and an octave `O` that is not negative, so for
every `O` in `[0,9]`, the name with `+` in front of the octave and the name
with a `0` in front of the octave have the outcome of the plain name, and `-0`
is octave 0; "C+4" and "C04" give 60 and "C-0" gives 12. -/
theorem octave_spellings (sc : Bool) (L : Byte) (S : Bool) (O : Int)
    (hL : is_note_letter L = true) (hlo : 0 ≤ O) :
    note_name_to_midi_id sc (L :: ((if S then [ch '#'] else []) ++ ch '+' :: decimal O)) =
      note_name_to_midi_id sc (spelled L S O) ∧
    note_name_to_midi_id sc (L :: ((if S then [ch '#'] else []) ++ ch '0' :: decimal O)) =
      note_name_to_midi_id sc (spelled L S O) ∧
    note_name_to_midi_id sc (L :: ((if S then [ch '#'] else []) ++ str "-0")) =
      note_name_to_midi_id sc (spelled L S 0) ∧
    note_name_to_midi_id sc (str "C+4") = .ok 60 ∧
    note_name_to_midi_id sc (str "C04") = .ok 60 ∧
    note_name_to_midi_id sc (str "C-0") = .ok 12 := by
  refine ⟨?_, ?_, ?_, by cases sc <;> decide, by cases sc <;> decide,
    by cases sc <;> decide⟩
  · have hX : ((((43 : Byte) :: decimal O).headD 0).val ≠ 35) := by
      show (43 : Byte).val ≠ 35
      decide
    have h : note_name_to_midi_int sc
        (L :: ((if S then [ch '#'] else []) ++ ch '+' :: decimal O)) =
        octave_step (table L + (if S then 1 else 0)) (clamp_long O) :=
      midi_int_with_octave sc L S (43 :: decimal O) _ hL hX (List.cons_ne_nil _ _)
        (parse_octave_plus O hlo)
    rw [midi_id_of_int, midi_id_of_int, midi_int_spelled sc L S O hL, h]
  · have hX : ((((48 : Byte) :: decimal O).headD 0).val ≠ 35) := by
      show (48 : Byte).val ≠ 35
      decide
    have h : note_name_to_midi_int sc
        (L :: ((if S then [ch '#'] else []) ++ ch '0' :: decimal O)) =
        octave_step (table L + (if S then 1 else 0)) (clamp_long O) :=
      midi_int_with_octave sc L S (48 :: decimal O) _ hL hX (List.cons_ne_nil _ _)
        (parse_octave_zero O hlo)
    rw [midi_id_of_int, midi_id_of_int, midi_int_spelled sc L S O hL, h]
  · have hp : parse_octave (str "-0") = .ok (clamp_long 0) := by decide
    have h : note_name_to_midi_int sc (L :: ((if S then [ch '#'] else []) ++ str "-0")) =
        octave_step (table L + (if S then 1 else 0)) (clamp_long 0) :=
      midi_int_with_octave sc L S (str "-0") _ hL (by decide) (by decide) hp
    rw [midi_id_of_int, midi_id_of_int, midi_int_spelled sc L S 0 hL, h]

/-- C17, at the inputs "G#+9" and "G#09", which fail as "G#9" does. -/
theorem octave_spellings_witness :
    is_note_letter (ch 'G') = true ∧ (0 : Int) ≤ 9 ∧
    ch 'G' :: ((if true then [ch '#'] else []) ++ ch '+' :: decimal 9) = str "G#+9" ∧
    note_name_to_midi_id false
        (ch 'G' :: ((if true then [ch '#'] else []) ++ ch '+' :: decimal 9)) =
      note_name_to_midi_id false (spelled (ch 'G') true 9) ∧
    note_name_to_midi_id false
        (ch 'G' :: ((if true then [ch '#'] else []) ++ ch '0' :: decimal 9)) =
      note_name_to_midi_id false (spelled (ch 'G') true 9) :=
  ⟨by decide, by decide, by decide,
    (octave_spellings false (ch 'G') true 9 (by decide) (by decide)).1,
    (octave_spellings false (ch 'G') true 9 (by decide) (by decide)).2.1⟩

/-- C18: on integer ids the two overloads of `midi_id_to_freq` agree: the
integer variant at `id` is the fractional variant at `id` taken as a real
number, for every id and so for every id in `[0,127]`. -/
theorem freq_overloads_agree (id : Nat) :
    ((midi_id_to_freq id : ℚ) : ℝ) = midi_id_to_freq_double (id : ℝ) := by
  have e : ((id : ℝ) - 69) = (((id : Int) - 69 : Int) : ℝ) := by
    push_cast
    ring
  unfold midi_id_to_freq midi_id_to_freq_double
  rw [e, Real.rpow_intCast]
  push_cast
  ring

/-- C19: the integer variant of `midi_id_to_freq` is strictly increasing in
the id, for all ids `a < b` and so for those in `[0,127]`, and every value is
positive; the ratio constant is greater than 1. -/
theorem freq_strictly_increasing (a b : Nat) (hab : a < b) :
    midi_id_to_freq a < midi_id_to_freq b ∧ 0 < midi_id_to_freq a ∧
    0 < midi_id_to_freq b ∧ 1 < M_2_POW_INV_12 := by
  have hpos : ∀ n : Nat, 0 < midi_id_to_freq n := by
    intro n
    unfold midi_id_to_freq
    exact mul_pos (zpow_pos ratio_pos _) (by norm_num)
  refine ⟨?_, hpos a, hpos b, ratio_gt_one⟩
  have hlt : ((a : Int) - 69) < ((b : Int) - 69) := by omega
  have hz := zpow_right_strictMono₀ ratio_gt_one hlt
  simp only at hz
  unfold midi_id_to_freq
  exact mul_lt_mul_of_pos_right hz (by norm_num)

/-- C19, at the ids 0 and 127. -/
theorem freq_strictly_increasing_witness :
    0 < 127 ∧ midi_id_to_freq 0 < midi_id_to_freq 127 :=
  ⟨by decide, (freq_strictly_increasing 0 127 (by decide)).1⟩

/-- C20: no indexed access of `note_name_to_midi_id` leaves its array, for any
input: the run never ends in `OutOfBounds`; a masked character that passes the
test of line 68 gives a table index in `[0,6]`, where the table of 7 entries
has a value; and an input that passes the length test of line 65 has a
character 0 and a character 1. -/
theorem indexed_reads_in_bounds (sc : Bool) (s : List Byte) :
    note_name_to_midi_int sc s ≠ .error Exn.OutOfBounds ∧
    note_name_to_midi_id sc s ≠ .error Exn.OutOfBounds ∧
    note_name_table.length = 7 ∧
    (∀ c : Byte, ¬ (bare_name_of sc c < 65 ∨ bare_name_of sc c > 71) →
      0 ≤ bare_name_of sc c - 65 ∧ bare_name_of sc c - 65 ≤ 6 ∧
      ∃ v, array_read note_name_table (bare_name_of sc c - 65) = .ok v) ∧
    (¬ s.length < 2 → ∃ c0 c1, s.get? 0 = some c0 ∧ s.get? 1 = some c1 ∧
      string_read s 0 = .ok c0 ∧ string_read s 1 = .ok c1) := by
  have h1 : note_name_to_midi_int sc s ≠ .error Exn.OutOfBounds := by
    rcases midi_int_result sc s with he | ⟨m, hm, _, _⟩
    · rw [he]; intro h; cases h
    · rw [hm]; intro h; cases h
  refine ⟨h1, ?_, rfl, ?_, ?_⟩
  · rw [midi_id_of_int]
    cases h : note_name_to_midi_int sc s with
    | ok m => intro h2; cases h2
    | error e =>
      intro h2
      cases h2
      exact h1 h
  · intro c hc
    have h0 : 0 ≤ bare_name_of sc c - 65 := by omega
    have h6 : bare_name_of sc c - 65 ≤ 6 := by omega
    exact ⟨h0, h6, array_read_in_bounds _ h0 h6⟩
  · intro hlen
    cases s with
    | nil => simp at hlen
    | cons c0 t =>
      cases t with
      | nil => simp at hlen
      | cons c1 r => exact ⟨c0, c1, rfl, rfl, rfl, rfl⟩

end Tune
